import Mathlib

/-!
Task manager: request handlers and client reconciliation.

A shallow embedding of `backend/controllers/taskController.js` and of the
reducers of `frontend/src/store/slices/tasksSlice.js`.

Handlers are pure functions from the store and the request to an `Outcome`:
the store afterwards, the ordered log of side effects, and the HTTP response.
-/

namespace TaskManager

/-! ## JavaScript values and strings -/

/-- A value of a JSON request body field. `undefined` is an absent key. Numbers are
kept as integers (only "is it zero" matters to the handlers); `obj` stands for any
array or object. -/
inductive JsVal where
  | undefined
  | null
  | bool (b : Bool)
  | num (n : Int)
  | str (s : String)
  | obj
  deriving DecidableEq, Repr

/-- JavaScript truthiness (`ToBoolean`). -/
def JsVal.truthy : JsVal → Bool
  | .undefined => false
  | .null => false
  | .bool b => b
  | .num n => n != 0
  | .str s => s != ""
  | .obj => true

/-- Code points that `String.prototype.trim` strips: ECMAScript WhiteSpace and
LineTerminator. -/
def isJsWhitespace (c : Char) : Bool :=
  let n := c.toNat
  n == 0x09 || n == 0x0A || n == 0x0B || n == 0x0C || n == 0x0D || n == 0x20 ||
  n == 0xA0 || n == 0x1680 || (0x2000 ≤ n && n ≤ 0x200A) || n == 0x2028 ||
  n == 0x2029 || n == 0x202F || n == 0x205F || n == 0x3000 || n == 0xFEFF

/-- The characters of `s.trim()`: whitespace dropped at the start, then at the end. -/
def trimChars (l : List Char) : List Char :=
  ((l.dropWhile isJsWhitespace).reverse.dropWhile isJsWhitespace).reverse

/-- `String.prototype.trim`. -/
def jsTrim (s : String) : String :=
  ⟨trimChars s.data⟩

/-- Calling `v.trim()`: only strings have the method; on any other value the call
throws a `TypeError` (`none`). -/
def JsVal.trim : JsVal → Option String
  | .str s => some (jsTrim s)
  | _ => none

/-- Calling `v?.trim()`: `undefined` for a nullish receiver, otherwise as `v.trim()`. -/
def JsVal.optTrim : JsVal → Option JsVal
  | .undefined => some .undefined
  | .null => some .undefined
  | .str s => some (.str (jsTrim s))
  | _ => none

/-! ## Data model -/

/-- The authenticated caller, `req.user`. -/
structure User where
  _id : Nat
  name : String
  deriving DecidableEq, Repr

/-- A task document. `user` is the owner's id (`task.user._id` once populated). -/
structure Task where
  _id : Nat
  title : String
  description : String
  status : JsVal
  dueDate : JsVal
  user : Nat
  createdAt : Nat
  updatedAt : Nat
  deriving DecidableEq, Repr

/-- Modelled from the spec: `models/Task.js` is not among the sources. The resource
store "holds task documents keyed by identifier"; the identifier is "opaque,
store-assigned", here the counter `nextId`. -/
structure Store where
  docs : List Task
  nextId : Nat
  deriving DecidableEq, Repr

/-- Modelled from the spec: the schema of `models/Task.js` is not among the sources.
Whatever validation it runs on `Task.create` and `task.save()` is the parameter
`validate`; a rejected write is a storage error that "surfaces as a generic
failure". -/
structure TaskModel where
  validate : Task → Bool

/-- `Task.findById(id)`. -/
def Store.findById (db : Store) (id : Nat) : Option Task :=
  db.docs.find? (fun t => t._id == id)

/-- The document list after `task.save()`: the stored document with the id of `u` is
replaced by `u`. -/
def saveDoc : List Task → Task → List Task
  | [], _ => []
  | t :: ts, u => if t._id = u._id then u :: ts else t :: saveDoc ts u

/-- The document list after `Task.deleteOne({ _id: id })`: at most one document goes. -/
def deleteOne : List Task → Nat → List Task
  | [], _ => []
  | t :: ts, id => if t._id = id then ts else t :: deleteOne ts id

/-! ## Broadcast channel -/

/-- Payloads of the three task events sent with `io.emit`. -/
inductive Event where
  | taskCreated (message : String) (task : Task) (actionBy : String) (userId : Nat)
      (timestamp : Nat)
  | taskUpdated (message : String) (task : Task) (actionBy : String) (userId : Nat)
      (timestamp : Nat)
  | taskDeleted (message : String) (taskId : Nat) (taskTitle : String) (actionBy : String)
      (userId : Nat) (timestamp : Nat)
  deriving DecidableEq, Repr

/-- The object registered under `'io'` on the app. `emitThrows e` says whether
`io.emit` raises on payload `e`. -/
structure Io where
  emitThrows : Event → Bool

/-! ## Requests and outcomes -/

/-- The fields the handlers read from `req.body`. -/
structure Body where
  title : JsVal
  description : JsVal
  status : JsVal
  dueDate : JsVal
  deriving DecidableEq, Repr

/-- What a handler reads from its environment: `req.body`, `req.user`,
`req.params.id`, `req.app.get('io')` and the clock (`new Date()`). -/
structure Req where
  body : Body
  user : User
  id : Nat
  io : Option Io
  now : Nat

/-- Side effects of a handler, in the order the handler performs them. -/
inductive Effect where
  | dbCreate (t : Task)
  | dbSave (t : Task)
  | dbDelete (id : Nat)
  | emit (e : Event)
  deriving DecidableEq, Repr

/-- Body of a successful response. -/
inductive ResBody where
  | task (t : Task)
  | tasks (ts : List Task)
  | removed (message : String) (taskId : Nat)
  deriving DecidableEq, Repr

/-- The HTTP response: `res.status(c).json(b)`, or the error response produced when
the handler throws (the status set before the throw, otherwise 500). -/
inductive Response where
  | json (status : Nat) (body : ResBody)
  | error (status : Nat) (message : String)
  deriving DecidableEq, Repr

/-- Result of running a handler. -/
structure Outcome where
  db : Store
  log : List Effect
  res : Response
  deriving DecidableEq, Repr

/-- The handler threw: nothing further happens. -/
def throwWith (db : Store) (log : List Effect) (status : Nat) (message : String) : Outcome :=
  ⟨db, log, .error status message⟩

/-- The guarded broadcast `if (io) { io.emit(...) }` followed by the rest of the
handler `k`, which receives the log so far. A raising `emit` ends the handler. -/
def withEmit (db : Store) (log : List Effect) (io : Option Io) (e : Event)
    (k : List Effect → Outcome) : Outcome :=
  match io with
  | none => k log
  | some ch =>
    if ch.emitThrows e then throwWith db log 500 "emit failed"
    else k (log ++ [.emit e])

/-! ## Request handlers (`taskController.js`) -/

/-- Lines 18-31 of `createTask`: the title guard and the document handed to
`Task.create`, with the identifier and timestamps the store assigns. An error is the
status and message of the exception thrown (500 for a `TypeError`). -/
def createDoc (db : Store) (req : Req) : Except (Nat × String) Task :=
  let title := req.body.title
  if !title.truthy then .error (400, "Task title is required")
  else
    match title.trim with
    | none => .error (500, "TypeError")
    | some trimmed =>
      if trimmed = "" then .error (400, "Task title is required")
      else
        match req.body.description.optTrim with
        | none => .error (500, "TypeError")
        | some d =>
          .ok
            { _id := db.nextId
              title := trimmed
              description := (match d with
                | .str s => if s != "" then s else ""
                | _ => "")
              status := if req.body.status.truthy then req.body.status else .str "todo"
              dueDate := if req.body.dueDate.truthy then req.body.dueDate else .null
              user := req.user._id
              createdAt := req.now
              updatedAt := req.now }

/-- `createTask`, POST /api/tasks. -/
def createTask (M : TaskModel) (db : Store) (req : Req) : Outcome :=
  match createDoc db req with
  | .error (status, message) => throwWith db [] status message
  | .ok task =>
    if !M.validate task then throwWith db [] 500 "ValidationError"
    else
      let db1 : Store := ⟨db.docs ++ [task], db.nextId + 1⟩
      withEmit db1 [.dbCreate task] req.io
        (.taskCreated ("🎯 New task created: \"" ++ task.title ++ "\"") task
          req.user.name req.user._id req.now)
        (fun log => ⟨db1, log, .json 201 (.task task)⟩)

/-- Lines 69-72 of `updateTask`: the four field assignments on the loaded document
(`none` when a `.trim()` call throws a `TypeError`), with the modification time the
store sets on save. -/
def updateDoc (task : Task) (body : Body) (now : Nat) : Option Task :=
  match (if body.title.truthy then body.title.trim else some task.title) with
  | none => none
  | some title =>
    match (if body.description.truthy then body.description.trim
           else some task.description) with
    | none => none
    | some description =>
      some
        { task with
          title := title
          description := description
          status := if body.status.truthy then body.status else task.status
          dueDate := if body.dueDate.truthy then body.dueDate else task.dueDate
          updatedAt := now }

/-- `updateTask`, PUT /api/tasks/:id. -/
def updateTask (M : TaskModel) (db : Store) (req : Req) : Outcome :=
  match db.findById req.id with
  | none => throwWith db [] 404 "Task not found"
  | some task =>
    if task.user ≠ req.user._id then throwWith db [] 403 "Not authorized to update this task"
    else
      match updateDoc task req.body req.now with
      | none => throwWith db [] 500 "TypeError"
      | some updatedTask =>
        if !M.validate updatedTask then throwWith db [] 500 "ValidationError"
        else
          let db1 : Store := ⟨saveDoc db.docs updatedTask, db.nextId⟩
          withEmit db1 [.dbSave updatedTask] req.io
            (.taskUpdated ("✏️ Task updated: \"" ++ updatedTask.title ++ "\"") updatedTask
              req.user.name req.user._id req.now)
            (fun log => ⟨db1, log, .json 200 (.task updatedTask)⟩)

/-- `deleteTask`, DELETE /api/tasks/:id. The event goes out before the removal. -/
def deleteTask (db : Store) (req : Req) : Outcome :=
  match db.findById req.id with
  | none => throwWith db [] 404 "Task not found"
  | some task =>
    if task.user ≠ req.user._id then throwWith db [] 403 "Not authorized to delete this task"
    else
      withEmit db [] req.io
        (.taskDeleted ("🗑️ Task deleted: \"" ++ task.title ++ "\"") req.id task.title
          req.user.name req.user._id req.now)
        (fun log =>
          ⟨⟨deleteOne db.docs req.id, db.nextId⟩, log ++ [.dbDelete req.id],
            .json 200 (.removed "Task removed successfully" req.id)⟩)

/-- Insertion into a list already ordered newest first. -/
def insertNewest (t : Task) : List Task → List Task
  | [] => [t]
  | u :: us => if u.createdAt ≤ t.createdAt then t :: u :: us else u :: insertNewest t us

/-- The documents ordered by `createdAt` descending, `.sort({ createdAt: -1 })`. -/
def sortNewestFirst : List Task → List Task
  | [] => []
  | t :: ts => insertNewest t (sortNewestFirst ts)

/-- `getAllTasks`, GET /api/tasks/all: the list the response carries. -/
def getAllTasks (db : Store) : List Task :=
  sortNewestFirst db.docs

/-! ## Sequences of requests -/

/-- A mutating request to the task routes. -/
inductive Request where
  | create (req : Req)
  | update (req : Req)
  | delete (req : Req)

/-- The handler the router dispatches a request to. -/
def handle (M : TaskModel) (db : Store) : Request → Outcome
  | .create req => createTask M db req
  | .update req => updateTask M db req
  | .delete req => deleteTask db req

/-- The store after a sequence of requests, handled one after the other. -/
def run (M : TaskModel) (db : Store) : List Request → Store
  | [] => db
  | r :: rs => run M (handle M db r).db rs

/-- Identifiers are unique and were all handed out by the store's counter. -/
def Store.WF (db : Store) : Prop :=
  (db.docs.map (fun t => t._id)).Nodup ∧ ∀ t ∈ db.docs, t._id < db.nextId

instance (db : Store) : Decidable db.WF := by
  unfold Store.WF; infer_instance

/-- Every stored title is non-empty after trimming. -/
def Store.titlesNonBlank (db : Store) : Prop :=
  ∀ t ∈ db.docs, jsTrim t.title ≠ ""

instance (db : Store) : Decidable db.titlesNonBlank := by
  unfold Store.titlesNonBlank; infer_instance

/-- The store `db1` continues `db`: the counter did not go back, and every document
of `db1` either has the id and owner of a document of `db` or carries an id handed
out since. -/
def Store.Continues (db db1 : Store) : Prop :=
  db.nextId ≤ db1.nextId ∧
  ∀ t1 ∈ db1.docs, (∃ t ∈ db.docs, t._id = t1._id ∧ t.user = t1.user) ∨ db.nextId ≤ t1._id

/-! ## Client state (`tasksSlice.js`) -/

/-- State of the `tasks` slice. -/
structure TasksState where
  tasks : List Task
  allTasks : List Task
  loading : Bool
  error : Option String
  deriving DecidableEq, Repr

/-- Reducer `taskCreated`: `unshift` on both collections. -/
def taskCreated (state : TasksState) (payload : Task) : TasksState :=
  { state with tasks := payload :: state.tasks, allTasks := payload :: state.allTasks }

/-- `collection.findIndex(task => task._id === id)`; `none` stands for `-1`. -/
def findIndex : List Task → Nat → Option Nat
  | [], _ => none
  | t :: ts, id => if t._id = id then some 0 else (findIndex ts id).map (fun i => i + 1)

/-- One collection under `taskUpdated` (lines 127-130, and again 132-135): the entry
at the index found is overwritten with the payload; nothing happens for `-1`. -/
def replaceFound (collection : List Task) (payload : Task) : List Task :=
  match findIndex collection payload._id with
  | some index => collection.set index payload
  | none => collection

/-- Reducer `taskUpdated`. -/
def taskUpdated (state : TasksState) (payload : Task) : TasksState :=
  { state with
    tasks := replaceFound state.tasks payload
    allTasks := replaceFound state.allTasks payload }

/-- Reducer `taskDeleted`; the payload is the task id. -/
def taskDeleted (state : TasksState) (payload : Nat) : TasksState :=
  { state with
    tasks := state.tasks.filter (fun task => task._id != payload)
    allTasks := state.allTasks.filter (fun task => task._id != payload) }

/-- Extra reducer for `createTask.fulfilled` (lines 161-164); the payload is the
task of the HTTP response. -/
def createTask.fulfilled (state : TasksState) (payload : Task) : TasksState :=
  { state with tasks := payload :: state.tasks, allTasks := payload :: state.allTasks }

/-- Extra reducer for `updateTask.fulfilled` (lines 166-175). -/
def updateTask.fulfilled (state : TasksState) (payload : Task) : TasksState :=
  let tasks :=
    match findIndex state.tasks payload._id with
    | some index => state.tasks.set index payload
    | none => state.tasks
  let allTasks :=
    match findIndex state.allTasks payload._id with
    | some allIndex => state.allTasks.set allIndex payload
    | none => state.allTasks
  { state with tasks := tasks, allTasks := allTasks }

/-- Extra reducer for `deleteTask.fulfilled` (lines 177-180); the payload is the id
the thunk returns. -/
def deleteTask.fulfilled (state : TasksState) (payload : Nat) : TasksState :=
  { state with
    tasks := state.tasks.filter (fun task => task._id != payload)
    allTasks := state.allTasks.filter (fun task => task._id != payload) }

/-! ## Connected-client registry (`server.js`) -/

/-- The value `connectedUsers` holds for a socket. -/
structure RosterEntry where
  userId : Nat
  userName : String
  socketId : Nat
  deriving DecidableEq, Repr

/-- The payload of the client's `user_connected` message. -/
structure UserData where
  userId : Nat
  userName : String
  deriving DecidableEq, Repr

/-- `Map.prototype.set` on a map kept in insertion order: an existing key keeps its
place and takes the new value, a new key goes last. -/
def mapSet : List (Nat × RosterEntry) → Nat → RosterEntry → List (Nat × RosterEntry)
  | [], k, v => [(k, v)]
  | (k0, v0) :: rest, k, v =>
    if k0 = k then (k, v) :: rest else (k0, v0) :: mapSet rest k v

/-- `Map.prototype.get`. -/
def mapGet (m : List (Nat × RosterEntry)) (k : Nat) : Option RosterEntry :=
  (m.find? (fun e => e.1 == k)).map (fun e => e.2)

/-- `Map.prototype.delete`. -/
def mapDelete (m : List (Nat × RosterEntry)) (k : Nat) : List (Nat × RosterEntry) :=
  m.filter (fun e => e.1 != k)

/-- What reaches the server for a socket: the connection itself, the client's
`user_connected` message, the disconnect. -/
inductive SocketEvent where
  | connection (socketId : Nat)
  | user_connected (socketId : Nat) (userData : UserData)
  | disconnect (socketId : Nat)
  deriving DecidableEq, Repr

/-- Payload of a `users_update` event. -/
structure UsersUpdate where
  count : Nat
  users : List RosterEntry
  deriving DecidableEq, Repr

/-- The handlers of `io.on('connection', ...)` (lines 47-80): the registry afterwards
and the `users_update` events emitted. -/
def onSocketEvent (connectedUsers : List (Nat × RosterEntry)) :
    SocketEvent → List (Nat × RosterEntry) × List UsersUpdate
  | .connection _ => (connectedUsers, [])
  | .user_connected socketId userData =>
    let m := mapSet connectedUsers socketId ⟨userData.userId, userData.userName, socketId⟩
    (m, [⟨m.length, m.map (fun e => e.2)⟩])
  | .disconnect socketId =>
    match mapGet connectedUsers socketId with
    | some _ =>
      let m := mapDelete connectedUsers socketId
      (m, [⟨m.length, m.map (fun e => e.2)⟩])
    | none => (connectedUsers, [])

/-- The registry after a sequence of socket events, starting from `new Map()`. -/
def registryAfter (events : List SocketEvent) : List (Nat × RosterEntry) :=
  events.foldl (fun m e => (onSocketEvent m e).1) []

/-- The events a handler's log says were passed to `io.emit`, in order. -/
def emitted : List Effect → List Event
  | [] => []
  | .emit e :: rest => e :: emitted rest
  | _ :: rest => emitted rest

/-- The packets going out for a handler's log. The handlers call `io.emit`, which in
socket.io addresses every socket connected to the server; the sender is left out only
by `socket.broadcast.emit`, which no handler uses (a handler does not know the
requester's socket). Each pair is a receiving socket and the event. -/
def deliveries (connected : List Nat) (log : List Effect) : List (Nat × Event) :=
  (emitted log).foldr (fun e acc => connected.map (fun s => (s, e)) ++ acc) []

/-! ## Listing and routing (`taskController.js`, `routes/tasks.js`) -/

/-- `getTasks`, GET /api/tasks: `Task.find({ user: req.user._id })` sorted by
`createdAt` descending; the list the response carries. -/
def getTasks (db : Store) (req : Req) : List Task :=
  sortNewestFirst (db.docs.filter (fun t => t.user == req.user._id))

/-- HTTP methods the task routes use. -/
inductive Method where
  | GET
  | POST
  | PUT
  | DELETE
  deriving DecidableEq, Repr

/-- Route patterns of `routes/tasks.js`: `'/'`, `'/all'`, `'/:id'`. -/
inductive RoutePath where
  | root
  | all
  | byId
  deriving DecidableEq, Repr

/-- The path of a request below `/api/tasks`: `/`, `/all`, or `/<id>`. -/
inductive Url where
  | root
  | all
  | id (n : Nat)
  deriving DecidableEq, Repr

/-- The five exported controllers. -/
inductive Controller where
  | getTasks
  | createTask
  | updateTask
  | deleteTask
  | getAllTasks
  deriving DecidableEq, Repr

/-- An entry of a route's handler stack. -/
inductive Middleware where
  | protect
  | controller (c : Controller)
  deriving DecidableEq, Repr

/-- One method of one route with its handler stack. -/
structure Route where
  path : RoutePath
  method : Method
  stack : List Middleware
  deriving DecidableEq, Repr

/-- The router of `routes/tasks.js`, in registration order. -/
def router : List Route :=
  [ ⟨.root, .GET, [.protect, .controller .getTasks]⟩,
    ⟨.root, .POST, [.protect, .controller .createTask]⟩,
    ⟨.all, .GET, [.protect, .controller .getAllTasks]⟩,
    ⟨.byId, .PUT, [.protect, .controller .updateTask]⟩,
    ⟨.byId, .DELETE, [.protect, .controller .deleteTask]⟩ ]

/-- Express path matching: `'/:id'` takes any single segment, `all` included. -/
def RoutePath.matches : RoutePath → Url → Bool
  | .root, .root => true
  | .all, .all => true
  | .byId, .id _ => true
  | .byId, .all => true
  | _, _ => false

/-- An incoming request to the task routes: method, path, the bearer credential and
what the controllers read. -/
structure HttpReq where
  method : Method
  url : Url
  token : Option String
  body : Body
  io : Option Io
  now : Nat

/-- Running one controller with `req.user` as set by the middleware before it.
The segment `all` under `'/:id'` is no document id: the lookup fails in the store. -/
def runController (M : TaskModel) (db : Store) (r : HttpReq) (user : User) :
    Controller → Outcome
  | .getTasks => ⟨db, [], .json 200 (.tasks (getTasks db ⟨r.body, user, 0, r.io, r.now⟩))⟩
  | .getAllTasks => ⟨db, [], .json 200 (.tasks (getAllTasks db))⟩
  | .createTask => createTask M db ⟨r.body, user, 0, r.io, r.now⟩
  | .updateTask =>
    match r.url with
    | .id n => updateTask M db ⟨r.body, user, n, r.io, r.now⟩
    | _ => throwWith db [] 500 "CastError"
  | .deleteTask =>
    match r.url with
    | .id n => deleteTask db ⟨r.body, user, n, r.io, r.now⟩
    | _ => throwWith db [] 500 "CastError"

/-- Running a handler stack in order. Modelled from the spec: `middleware/auth.js` is
not among the sources; `protect` is the parameter that maps the credential to the
authenticated user or rejects it, and a rejection is answered 401 without calling
`next()`. A controller reached with no `req.user` set fails on reading it, except
`getAllTasks`, which does not read it. -/
def runStack (protect : Option String → Option User) (M : TaskModel) (db : Store)
    (r : HttpReq) : Option User → List Middleware → Outcome
  | _, [] => throwWith db [] 404 "Not Found"
  | _, .protect :: rest =>
    match protect r.token with
    | none => throwWith db [] 401 "Not authorized"
    | some u => runStack protect M db r (some u) rest
  | some u, .controller c :: _ => runController M db r u c
  | none, .controller c :: _ =>
    if c = .getAllTasks then ⟨db, [], .json 200 (.tasks (getAllTasks db))⟩
    else throwWith db [] 500 "TypeError"

/-- The router at work: the first route whose path and method match runs its stack;
with no match the request falls through to a 404. -/
def dispatch (protect : Option String → Option User) (M : TaskModel) (db : Store)
    (r : HttpReq) : Outcome :=
  match router.find? (fun route => route.method == r.method && route.path.matches r.url) with
  | none => throwWith db [] 404 "Not Found"
  | some route => runStack protect M db r none route.stack

/-! ## The slice reducer (`tasksSlice.js`, `extraReducers`) -/

/-- The five async thunks. -/
inductive Thunk where
  | fetchTasks
  | fetchAllTasks
  | createTask
  | updateTask
  | deleteTask
  deriving DecidableEq, Repr

/-- Actions that reach the `tasks` slice. A rejected thunk carries the message given
to `rejectWithValue`. -/
inductive Action where
  | clearError
  | taskCreated (payload : Task)
  | taskUpdated (payload : Task)
  | taskDeleted (payload : Nat)
  | pending (thunk : Thunk)
  | rejected (thunk : Thunk) (payload : Option String)
  | fetchTasksFulfilled (payload : List Task)
  | fetchAllTasksFulfilled (payload : List Task)
  | createTaskFulfilled (payload : Task)
  | updateTaskFulfilled (payload : Task)
  | deleteTaskFulfilled (payload : Nat)
  deriving DecidableEq, Repr

/-- The reducer of the slice: `reducers` (lines 116-141) and the cases of
`extraReducers` (lines 142-181); an action with no case leaves the state as it is. -/
def tasksReducer (state : TasksState) : Action → TasksState
  | .clearError => { state with error := none }
  | .taskCreated payload => taskCreated state payload
  | .taskUpdated payload => taskUpdated state payload
  | .taskDeleted payload => taskDeleted state payload
  | .pending .fetchTasks => { state with loading := true }
  | .fetchTasksFulfilled payload => { state with loading := false, tasks := payload }
  | .rejected .fetchTasks payload => { state with loading := false, error := payload }
  | .fetchAllTasksFulfilled payload => { state with allTasks := payload }
  | .createTaskFulfilled payload => createTask.fulfilled state payload
  | .updateTaskFulfilled payload => updateTask.fulfilled state payload
  | .deleteTaskFulfilled payload => deleteTask.fulfilled state payload
  | _ => state

/-! ## `TaskItem.jsx` -/

/-- The `user` field of a task as the client holds it: missing, a bare id, or the
populated object (of which only `_id` is read). -/
inductive UserRef where
  | missing
  | bare (id : Nat)
  | populated (_id : Nat)
  deriving DecidableEq, Repr

/-- The task prop of `TaskItem`, as far as the handlers read it. -/
structure ItemTask where
  _id : Nat
  title : String
  user : UserRef
  deriving DecidableEq, Repr

/-- What the handlers of `TaskItem` do. -/
inductive UiEffect where
  | alert (message : String)
  | dispatchUpdateTask (id : Nat) (taskData : Body)
  | dispatchDeleteTask (id : Nat)
  | setIsEditing (value : Bool)
  deriving DecidableEq, Repr

/-- Truthiness of `isTaskOwner` (line 19):
`userInfo && task.user && (task.user._id === userInfo._id || task.user === userInfo._id)`.
`userInfo` is `none` when nobody is logged in; a logged-in user has an `_id`. On a
bare id `task.user._id` is `undefined`, and a populated object is never `===` an id. -/
def isTaskOwner (userInfo : Option User) (task : ItemTask) : Bool :=
  match userInfo with
  | none => false
  | some info =>
    match task.user with
    | .missing => false
    | .bare id => false || id == info._id
    | .populated _id => _id == info._id || false

/-- `handleUpdate` (lines 21-35). A non-empty `editData.dueDate` is sent as a `Date`
object, an empty one as `null`. -/
def handleUpdate (userInfo : Option User) (task : ItemTask) (editData : Body) : List UiEffect :=
  if !isTaskOwner userInfo task then [.alert "You can only edit your own tasks"]
  else
    [ .dispatchUpdateTask task._id
        { editData with dueDate := if editData.dueDate.truthy then .obj else .null },
      .setIsEditing false ]

/-- `handleDelete` (lines 37-46); `confirmed` is the answer of `window.confirm`. -/
def handleDelete (userInfo : Option User) (task : ItemTask) (confirmed : Bool) : List UiEffect :=
  if !isTaskOwner userInfo task then [.alert "You can only delete your own tasks"]
  else if confirmed then [.dispatchDeleteTask task._id]
  else []

/-! ## The task schema as the spec gives it -/

/-- Modelled from the spec: `models/Task.js` is not among the sources. The data model
gives a task a "title (non-empty after trimming, ...)" and a "status (enumeration:
`todo`, `in-progress`, `done`; ...)"; a write that breaks either is refused by the
store. The bound on the description is not given by the spec and is left out. -/
def specTaskModel : TaskModel :=
  ⟨fun t => decide (jsTrim t.title ≠ "") &&
    (t.status == .str "todo" || t.status == .str "in-progress" || t.status == .str "done")⟩

/-! ## Sample data -/

/-- A model that accepts every document. -/
def laxModel : TaskModel := ⟨fun _ => true⟩

/-- A channel whose `emit` returns normally. -/
def readyIo : Io := ⟨fun _ => false⟩

/-- A channel whose `emit` raises. -/
def brokenIo : Io := ⟨fun _ => true⟩

def userA : User := ⟨1, "A"⟩

def userB : User := ⟨2, "B"⟩

/-- A task of user A. -/
def shipRelease : Task :=
  ⟨0, "Ship release", "notes", .str "todo", .str "2025-01-01", 1, 5, 5⟩

/-- A store holding only `shipRelease`. -/
def sampleDb : Store := ⟨[shipRelease], 1⟩

/-- A request body with no field. -/
def emptyBody : Body := ⟨.undefined, .undefined, .undefined, .undefined⟩

/-! ## Lookup lemmas -/

theorem find_first_of_nodup (l : List Task) (h : (l.map (fun t => t._id)).Nodup)
    (t : Task) (ht : t ∈ l) : l.find? (fun u => u._id == t._id) = some t := by
  induction l with
  | nil => cases ht
  | cons a as ih =>
    rw [List.map_cons, List.nodup_cons] at h
    rcases List.mem_cons.mp ht with rfl | hmem
    · simp
    · have hne : a._id ≠ t._id := by
        intro heq
        exact h.1 (heq ▸ List.mem_map_of_mem (fun u => u._id) hmem)
      rw [List.find?_cons_of_neg]
      · exact ih h.2 hmem
      · simpa using hne

theorem findById_of_mem (db : Store) (hwf : db.WF) (t : Task) (ht : t ∈ db.docs) :
    db.findById t._id = some t :=
  find_first_of_nodup db.docs hwf.1 t ht

theorem findById_none_of_absent (db : Store) (id : Nat) (h : ∀ t ∈ db.docs, t._id ≠ id) :
    db.findById id = none := by
  unfold Store.findById
  rw [List.find?_eq_none]
  intro t ht
  simpa using h t ht

theorem findById_some_mem (db : Store) (id : Nat) (t : Task) (h : db.findById id = some t) :
    t ∈ db.docs ∧ t._id = id := by
  unfold Store.findById at h
  have h1 := List.find?_some h
  have h2 := List.mem_of_find?_eq_some h
  exact ⟨h2, by simpa using h1⟩

/-! ## Trimming lemmas -/

theorem trimChars_of_all_whitespace (l : List Char) (h : l.all isJsWhitespace = true) :
    trimChars l = [] := by
  have h1 : l.dropWhile isJsWhitespace = [] := by
    rw [List.dropWhile_eq_nil_iff]
    intro c hc
    exact List.all_eq_true.mp h c hc
  simp [trimChars, h1]

theorem jsTrim_of_all_whitespace (s : String) (h : s.data.all isJsWhitespace = true) :
    jsTrim s = "" := by
  unfold jsTrim
  rw [trimChars_of_all_whitespace s.data h]

/-! ## Rejected requests leave the store alone -/

/-- C1: when the caller is not the owner of the stored task the request names,
`updateTask` and `deleteTask` both answer 403, perform no effect and return the
store they were given. -/
theorem nonOwner_forbidden (M : TaskModel) (db : Store) (req : Req) (task : Task)
    (hwf : db.WF) (hmem : task ∈ db.docs) (hid : task._id = req.id)
    (hne : req.user._id ≠ task.user) :
    updateTask M db req = ⟨db, [], .error 403 "Not authorized to update this task"⟩ ∧
    deleteTask db req = ⟨db, [], .error 403 "Not authorized to delete this task"⟩ := by
  have hfind : db.findById req.id = some task := hid ▸ findById_of_mem db hwf task hmem
  have hne2 : task.user ≠ req.user._id := fun h => hne h.symm
  constructor
  · simp [updateTask, hfind, hne2, throwWith]
  · simp [deleteTask, hfind, hne2, throwWith]

theorem nonOwner_forbidden_witness :
    (updateTask laxModel sampleDb ⟨emptyBody, userB, 0, some readyIo, 9⟩ =
      ⟨sampleDb, [], .error 403 "Not authorized to update this task"⟩) ∧
    (deleteTask sampleDb ⟨emptyBody, userB, 0, some readyIo, 9⟩ =
      ⟨sampleDb, [], .error 403 "Not authorized to delete this task"⟩) :=
  nonOwner_forbidden laxModel sampleDb ⟨emptyBody, userB, 0, some readyIo, 9⟩ shipRelease
    (by decide) (by decide) rfl (by decide)

/-- C2: a create request whose title is missing (absent or null), empty or made
of whitespace only is answered 400 and the store is returned as given, with no
effect performed. -/
theorem createTask_blank_title (M : TaskModel) (db : Store) (req : Req)
    (h : req.body.title = .undefined ∨ req.body.title = .null ∨
      ∃ s, req.body.title = .str s ∧ s.data.all isJsWhitespace = true) :
    createTask M db req = ⟨db, [], .error 400 "Task title is required"⟩ := by
  rcases h with h | h | ⟨s, h, hs⟩
  · simp [createTask, createDoc, h, JsVal.truthy, throwWith]
  · simp [createTask, createDoc, h, JsVal.truthy, throwWith]
  · by_cases he : s = ""
    · simp [createTask, createDoc, h, he, JsVal.truthy, throwWith]
    · simp [createTask, createDoc, h, he, JsVal.truthy, JsVal.trim, throwWith,
        jsTrim_of_all_whitespace s hs]

theorem createTask_blank_title_witness :
    createTask laxModel sampleDb ⟨⟨.str " \t\n ", .str "d", .undefined, .undefined⟩, userA, 0,
      some readyIo, 9⟩ = ⟨sampleDb, [], .error 400 "Task title is required"⟩ :=
  createTask_blank_title laxModel sampleDb _ (Or.inr (Or.inr ⟨" \t\n ", rfl, by decide⟩))

/-- C4: when no stored task has the requested id, `updateTask` and `deleteTask`
both answer 404 whoever the caller is, perform no effect and return the store
they were given; ownership plays no part in the answer. -/
theorem missing_task_not_found (M : TaskModel) (db : Store) (req : Req)
    (h : ∀ t ∈ db.docs, t._id ≠ req.id) :
    updateTask M db req = ⟨db, [], .error 404 "Task not found"⟩ ∧
    deleteTask db req = ⟨db, [], .error 404 "Task not found"⟩ := by
  have hfind := findById_none_of_absent db req.id h
  constructor
  · simp [updateTask, hfind, throwWith]
  · simp [deleteTask, hfind, throwWith]

theorem missing_task_not_found_witness :
    (updateTask laxModel sampleDb ⟨emptyBody, userA, 7, some readyIo, 9⟩ =
      ⟨sampleDb, [], .error 404 "Task not found"⟩) ∧
    (deleteTask sampleDb ⟨emptyBody, userA, 7, some readyIo, 9⟩ =
      ⟨sampleDb, [], .error 404 "Task not found"⟩) :=
  missing_task_not_found laxModel sampleDb ⟨emptyBody, userA, 7, some readyIo, 9⟩ (by decide)

/-! ## Successful create and update -/

theorem withEmit_of_quiet (db : Store) (log : List Effect) (io : Option Io) (e : Event)
    (k : List Effect → Outcome) (hio : ∀ ch, io = some ch → ch.emitThrows e = false) :
    withEmit db log io e k =
      k (log ++ (match io with | none => [] | some _ => [.emit e])) := by
  cases io with
  | none => simp [withEmit]
  | some ch => simp [withEmit, hio ch rfl]

/-- C3: for a create request whose title is a string that is non-empty after
trimming, whose description is absent, null or a string, whose document the model
accepts and whose broadcast does not raise, `createTask` answers 201 with a task
that it has appended to the store; that task is owned by the caller and its title
is the trimmed request title. -/
theorem createTask_owner_and_title (M : TaskModel) (db : Store) (req : Req) (s : String)
    (ht : req.body.title = .str s) (hs : jsTrim s ≠ "")
    (hd : req.body.description = .undefined ∨ req.body.description = .null ∨
      ∃ d, req.body.description = .str d)
    (hv : ∀ t, createDoc db req = .ok t → M.validate t = true)
    (hio : ∀ ch e, req.io = some ch → ch.emitThrows e = false) :
    ∃ task, (createTask M db req).res = .json 201 (.task task) ∧
      (createTask M db req).db = ⟨db.docs ++ [task], db.nextId + 1⟩ ∧
      task.user = req.user._id ∧ task.title = jsTrim s := by
  have hne : s ≠ "" := by
    intro h
    apply hs
    subst h
    rfl
  have hdoc : ∃ task, createDoc db req = .ok task ∧ task.user = req.user._id ∧
      task.title = jsTrim s := by
    rcases hd with hd | hd | ⟨d, hd⟩ <;>
      simp [createDoc, ht, hd, JsVal.truthy, JsVal.trim, JsVal.optTrim, hne, hs]
  obtain ⟨task, hdoc, hu, htt⟩ := hdoc
  refine ⟨task, ?_, ?_, hu, htt⟩
  · simp only [createTask, hdoc, hv task hdoc]
    rw [withEmit_of_quiet _ _ _ _ _ (fun ch h => hio ch _ h)]
    simp
  · simp only [createTask, hdoc, hv task hdoc]
    rw [withEmit_of_quiet _ _ _ _ _ (fun ch h => hio ch _ h)]
    simp

theorem createTask_owner_and_title_witness :
    ∃ task, (createTask laxModel sampleDb
        ⟨⟨.str "  Fix bug ", .undefined, .undefined, .undefined⟩, userB, 0, some readyIo, 9⟩).res =
        .json 201 (.task task) ∧
      (createTask laxModel sampleDb
        ⟨⟨.str "  Fix bug ", .undefined, .undefined, .undefined⟩, userB, 0, some readyIo, 9⟩).db =
        ⟨sampleDb.docs ++ [task], sampleDb.nextId + 1⟩ ∧
      task.user = userB._id ∧ task.title = jsTrim "  Fix bug " :=
  createTask_owner_and_title laxModel sampleDb
    ⟨⟨.str "  Fix bug ", .undefined, .undefined, .undefined⟩, userB, 0, some readyIo, 9⟩
    "  Fix bug " rfl (by decide) (Or.inl rfl) (fun _ _ => rfl)
    (fun _ _ h => by cases h; rfl)

theorem find_saveDoc (l : List Task) (h : (l.map (fun t => t._id)).Nodup) (task u : Task)
    (hmem : task ∈ l) (hid : u._id = task._id) :
    (saveDoc l u).find? (fun t => t._id == task._id) = some u := by
  induction l with
  | nil => cases hmem
  | cons a as ih =>
    rw [List.map_cons, List.nodup_cons] at h
    rcases List.mem_cons.mp hmem with rfl | hm
    · simp [saveDoc, hid]
    · have hne : a._id ≠ task._id := by
        intro heq
        exact h.1 (heq ▸ List.mem_map_of_mem (fun t => t._id) hm)
      have hne2 : a._id ≠ u._id := hid ▸ hne
      simp only [saveDoc, hne2, if_false]
      rw [List.find?_cons_of_neg]
      · exact ih h.2 hm
      · simpa using hne

/-- The store `updateTask` leaves when the write goes through, whatever the channel does. -/
theorem updateTask_db (M : TaskModel) (db : Store) (req : Req) (task u : Task)
    (hfind : db.findById req.id = some task) (hown : task.user = req.user._id)
    (hdoc : updateDoc task req.body req.now = some u) (hv : M.validate u = true) :
    (updateTask M db req).db = ⟨saveDoc db.docs u, db.nextId⟩ := by
  simp only [updateTask, hfind, hown, hdoc, hv]
  cases hio : req.io with
  | none => simp [withEmit]
  | some ch =>
    by_cases hthrow : ch.emitThrows
      (.taskUpdated ("✏️ Task updated: \"" ++ u.title ++ "\"") u req.user.name req.user._id
        req.now) = true
    · simp [withEmit, hthrow, throwWith]
    · simp [withEmit, hthrow]

/-- What `updateDoc` assigns, field by field. -/
theorem updateDoc_fields (task : Task) (body : Body) (now : Nat) (u : Task)
    (h : updateDoc task body now = some u) :
    (if body.title.truthy then body.title.trim = some u.title else u.title = task.title) ∧
    (if body.description.truthy then body.description.trim = some u.description
      else u.description = task.description) ∧
    u.status = (if body.status.truthy then body.status else task.status) ∧
    u.dueDate = (if body.dueDate.truthy then body.dueDate else task.dueDate) ∧
    u._id = task._id ∧ u.user = task.user ∧ u.createdAt = task.createdAt := by
  unfold updateDoc at h
  split at h
  · cases h
  · rename_i title htitle
    split at h
    · cases h
    · rename_i description hdescription
      cases h
      refine ⟨?_, ?_, rfl, rfl, rfl, rfl, rfl⟩
      · by_cases hb : body.title.truthy = true
        · simpa [hb] using htitle
        · simp only [hb] at htitle ⊢
          simpa using htitle.symm
      · by_cases hb : body.description.truthy = true
        · simpa [hb] using hdescription
        · simp only [hb] at hdescription ⊢
          simpa using hdescription.symm

theorem trim_or_keep_defined (v : JsVal) (x : String)
    (h : v = .undefined ∨ ∃ s, v = .str s) :
    ∃ y, (if v.truthy then v.trim else some x) = some y := by
  rcases h with h | ⟨s, h⟩
  · subst h
    exact ⟨x, by simp [JsVal.truthy]⟩
  · subst h
    by_cases hs : s = ""
    · exact ⟨x, by simp [JsVal.truthy, hs]⟩
    · exact ⟨jsTrim s, by simp [JsVal.truthy, JsVal.trim, hs]⟩

theorem updateDoc_defined (task : Task) (body : Body) (now : Nat)
    (ht : body.title = .undefined ∨ ∃ s, body.title = .str s)
    (hd : body.description = .undefined ∨ ∃ s, body.description = .str s) :
    ∃ u, updateDoc task body now = some u := by
  obtain ⟨y1, h1⟩ := trim_or_keep_defined body.title task.title ht
  obtain ⟨y2, h2⟩ := trim_or_keep_defined body.description task.description hd
  simp only [updateDoc, h1, h2]
  exact ⟨_, rfl⟩

/-- C5 (as stated, refuted): the owner sends a body in which the title is present as
the empty string; the stored task keeps its title instead of taking the request value. -/
theorem updateTask_present_empty_title_kept :
    (updateTask laxModel sampleDb
        ⟨⟨.str "", .undefined, .undefined, .undefined⟩, userA, 0, some readyIo, 9⟩).db.findById 0 =
      some { shipRelease with updatedAt := 9 } ∧
    ({ shipRelease with updatedAt := 9 } : Task).title ≠ jsTrim "" := by
  decide

/-- C5 (amended): for an update by the owner of a stored task, with title and
description each absent or a string and a document the model accepts, the stored
task afterwards takes every field whose request value is truthy (title and
description trimmed) and keeps every field that is absent from the body; a title
sent as the empty string leaves the stored title as it was. -/
theorem updateTask_fields (M : TaskModel) (db : Store) (req : Req) (task : Task)
    (hwf : db.WF) (hmem : task ∈ db.docs) (hid : task._id = req.id)
    (hown : task.user = req.user._id)
    (ht : req.body.title = .undefined ∨ ∃ s, req.body.title = .str s)
    (hd : req.body.description = .undefined ∨ ∃ s, req.body.description = .str s)
    (hv : ∀ u, updateDoc task req.body req.now = some u → M.validate u = true) :
    ∃ u, (updateTask M db req).db.findById req.id = some u ∧
      (∀ s, req.body.title = .str s → s ≠ "" → u.title = jsTrim s) ∧
      (req.body.title = .undefined ∨ req.body.title = .str "" → u.title = task.title) ∧
      (∀ s, req.body.description = .str s → s ≠ "" → u.description = jsTrim s) ∧
      (req.body.description = .undefined → u.description = task.description) ∧
      (req.body.status.truthy = true → u.status = req.body.status) ∧
      (req.body.status = .undefined → u.status = task.status) ∧
      (req.body.dueDate.truthy = true → u.dueDate = req.body.dueDate) ∧
      (req.body.dueDate = .undefined → u.dueDate = task.dueDate) := by
  obtain ⟨u, hdoc⟩ := updateDoc_defined task req.body req.now ht hd
  have hfind : db.findById req.id = some task := hid ▸ findById_of_mem db hwf task hmem
  obtain ⟨f1, f2, f3, f4, f5, -, -⟩ := updateDoc_fields task req.body req.now u hdoc
  refine ⟨u, ?_, ?_, ?_, ?_, ?_, ?_, ?_, ?_, ?_⟩
  · rw [updateTask_db M db req task u hfind hown hdoc (hv u hdoc)]
    unfold Store.findById
    rw [← hid]
    exact find_saveDoc db.docs hwf.1 task u hmem f5
  · intro s hs hne
    simp [hs, JsVal.truthy, JsVal.trim, hne] at f1
    exact f1.symm
  · rintro (h | h) <;> simpa [h, JsVal.truthy] using f1
  · intro s hs hne
    simp [hs, JsVal.truthy, JsVal.trim, hne] at f2
    exact f2.symm
  · intro h
    simpa [h, JsVal.truthy] using f2
  · intro h
    simpa [h] using f3
  · intro h
    simpa [h, JsVal.truthy] using f3
  · intro h
    simpa [h] using f4
  · intro h
    simpa [h, JsVal.truthy] using f4

theorem updateTask_fields_witness :
    ∃ u, (updateTask laxModel sampleDb
        ⟨⟨.str " Ship v2 ", .undefined, .str "done", .undefined⟩, userA, 0, some readyIo,
          9⟩).db.findById 0 = some u ∧
      u.title = "Ship v2" ∧ u.description = "notes" ∧ u.status = .str "done" ∧
      u.dueDate = .str "2025-01-01" := by
  obtain ⟨u, h0, h1, -, -, h4, h5, -, -, h8⟩ := updateTask_fields laxModel sampleDb
    ⟨⟨.str " Ship v2 ", .undefined, .str "done", .undefined⟩, userA, 0, some readyIo, 9⟩
    shipRelease (by decide) (by decide) rfl rfl (Or.inr ⟨_, rfl⟩) (Or.inl rfl) (fun _ _ => rfl)
  exact ⟨u, h0, (h1 " Ship v2 " rfl (by decide)).trans (by decide), h4 rfl, h5 rfl, h8 rfl⟩

/-! ## One request at a time: what can happen to the store -/

theorem createDoc_ok (db : Store) (req : Req) (t : Task) (h : createDoc db req = .ok t) :
    t._id = db.nextId ∧ t.user = req.user._id ∧ t.title ≠ "" ∧
    ∃ s, req.body.title = .str s ∧ t.title = jsTrim s := by
  unfold createDoc at h
  simp only at h
  split at h
  · cases h
  · split at h
    · cases h
    · rename_i trimmed htrim
      split at h
      · cases h
      · rename_i hne
        split at h
        · cases h
        · cases h
          refine ⟨rfl, rfl, hne, ?_⟩
          cases htitle : req.body.title <;> simp [htitle, JsVal.trim] at htrim
          exact ⟨_, rfl, htrim.symm⟩

theorem createTask_db (M : TaskModel) (db : Store) (req : Req) (t : Task)
    (hdoc : createDoc db req = .ok t) (hv : M.validate t = true) :
    (createTask M db req).db = ⟨db.docs ++ [t], db.nextId + 1⟩ := by
  simp only [createTask, hdoc, hv]
  cases hio : req.io with
  | none => simp [withEmit]
  | some ch =>
    by_cases hthrow : ch.emitThrows
      (.taskCreated ("🎯 New task created: \"" ++ t.title ++ "\"") t req.user.name req.user._id
        req.now) = true
    · simp [withEmit, hthrow, throwWith]
    · simp [withEmit, hthrow]

theorem createTask_db_cases (M : TaskModel) (db : Store) (req : Req) :
    (createTask M db req).db = db ∨
    ∃ t, createDoc db req = .ok t ∧
      (createTask M db req).db = ⟨db.docs ++ [t], db.nextId + 1⟩ := by
  cases hdoc : createDoc db req with
  | error e => left; simp [createTask, hdoc, throwWith]
  | ok t =>
    by_cases hv : M.validate t = true
    · right
      exact ⟨t, rfl, createTask_db M db req t hdoc hv⟩
    · left; simp [createTask, hdoc, hv, throwWith]

theorem updateTask_db_cases (M : TaskModel) (db : Store) (req : Req) :
    (updateTask M db req).db = db ∨
    ∃ task u, db.findById req.id = some task ∧ updateDoc task req.body req.now = some u ∧
      (updateTask M db req).db = ⟨saveDoc db.docs u, db.nextId⟩ := by
  cases hfind : db.findById req.id with
  | none => left; simp [updateTask, hfind, throwWith]
  | some task =>
    by_cases hown : task.user = req.user._id
    · cases hdoc : updateDoc task req.body req.now with
      | none => left; simp [updateTask, hfind, hown, hdoc, throwWith]
      | some u =>
        by_cases hv : M.validate u = true
        · right
          exact ⟨task, u, rfl, hdoc, updateTask_db M db req task u hfind hown hdoc hv⟩
        · left; simp [updateTask, hfind, hown, hdoc, hv, throwWith]
    · left; simp [updateTask, hfind, hown, throwWith]

theorem deleteTask_db_cases (db : Store) (req : Req) :
    (deleteTask db req).db = db ∨
    (deleteTask db req).db = ⟨deleteOne db.docs req.id, db.nextId⟩ := by
  unfold deleteTask
  split
  · left; rfl
  · split
    · left; rfl
    · cases req.io with
      | none => right; simp [withEmit]
      | some ch =>
        simp only [withEmit]
        split
        · left; rfl
        · right; rfl

theorem saveDoc_ids (l : List Task) (u : Task) :
    (saveDoc l u).map (fun t => t._id) = l.map (fun t => t._id) := by
  induction l with
  | nil => rfl
  | cons a as ih =>
    by_cases h : a._id = u._id
    · simp [saveDoc, h]
    · simp [saveDoc, h, ih]

theorem mem_saveDoc (l : List Task) (u t : Task) (h : t ∈ saveDoc l u) : t ∈ l ∨ t = u := by
  induction l with
  | nil => cases h
  | cons a as ih =>
    by_cases ha : a._id = u._id
    · simp only [saveDoc, ha, if_true, List.mem_cons] at h
      rcases h with h | h
      · exact Or.inr h
      · exact Or.inl (List.mem_cons_of_mem _ h)
    · simp only [saveDoc, ha, if_false, List.mem_cons] at h
      rcases h with h | h
      · exact Or.inl (h ▸ List.mem_cons_self _ _)
      · rcases ih h with h1 | h1
        · exact Or.inl (List.mem_cons_of_mem _ h1)
        · exact Or.inr h1

theorem deleteOne_sublist (l : List Task) (id : Nat) : (deleteOne l id).Sublist l := by
  induction l with
  | nil => exact List.Sublist.refl _
  | cons a as ih =>
    by_cases ha : a._id = id
    · simp only [deleteOne, ha, if_true]
      exact List.sublist_cons_self _ _
    · simp only [deleteOne, ha, if_false]
      exact ih.cons₂ a

theorem deleteOne_no_id (l : List Task) (id : Nat) (h : (l.map (fun t => t._id)).Nodup) :
    ∀ t ∈ deleteOne l id, t._id ≠ id := by
  induction l with
  | nil => intro t ht; cases ht
  | cons a as ih =>
    rw [List.map_cons, List.nodup_cons] at h
    intro t ht
    by_cases ha : a._id = id
    · simp only [deleteOne, ha, if_true] at ht
      intro heq
      exact h.1 (ha ▸ heq ▸ List.mem_map_of_mem (fun u => u._id) ht)
    · simp only [deleteOne, ha, if_false, List.mem_cons] at ht
      rcases ht with rfl | ht
      · exact ha
      · exact ih h.2 t ht

theorem continues_refl (db : Store) : db.Continues db :=
  ⟨Nat.le_refl _, fun t ht => Or.inl ⟨t, ht, rfl, rfl⟩⟩

theorem continues_trans (a b c : Store) (hab : a.Continues b) (hbc : b.Continues c) :
    a.Continues c := by
  refine ⟨Nat.le_trans hab.1 hbc.1, ?_⟩
  intro t2 ht2
  rcases hbc.2 t2 ht2 with ⟨t1, ht1, hid, hu⟩ | hnew
  · rcases hab.2 t1 ht1 with ⟨t, ht, hid0, hu0⟩ | hnew
    · exact Or.inl ⟨t, ht, hid0.trans hid, hu0.trans hu⟩
    · exact Or.inr (hid ▸ hnew)
  · exact Or.inr (Nat.le_trans hab.1 hnew)

theorem wf_append_new (db : Store) (hwf : db.WF) (t : Task) (hid : t._id = db.nextId) :
    (⟨db.docs ++ [t], db.nextId + 1⟩ : Store).WF := by
  constructor
  · show ((db.docs ++ [t]).map (fun t => t._id)).Nodup
    rw [List.map_append, List.nodup_append]
    refine ⟨hwf.1, by simp, ?_⟩
    intro a ha hb
    simp only [List.map_cons, List.map_nil, List.mem_singleton] at hb
    obtain ⟨u, hu, rfl⟩ := List.mem_map.mp ha
    have := hwf.2 u hu
    omega
  · intro u hu
    show u._id < db.nextId + 1
    rcases List.mem_append.mp hu with h | h
    · have := hwf.2 u h
      omega
    · rw [List.mem_singleton] at h
      subst h
      omega

theorem handle_continues (M : TaskModel) (db : Store) (r : Request) (hwf : db.WF) :
    (handle M db r).db.WF ∧ db.Continues (handle M db r).db := by
  cases r with
  | create req =>
    rcases createTask_db_cases M db req with h | ⟨t, hdoc, h⟩
    · simp only [handle, h]
      exact ⟨hwf, continues_refl db⟩
    · simp only [handle, h]
      obtain ⟨hid, -, -, -⟩ := createDoc_ok db req t hdoc
      refine ⟨wf_append_new db hwf t hid, Nat.le_succ _, ?_⟩
      intro t1 ht1
      rcases List.mem_append.mp ht1 with h1 | h1
      · exact Or.inl ⟨t1, h1, rfl, rfl⟩
      · rw [List.mem_singleton] at h1
        exact Or.inr (by rw [h1, hid])
  | update req =>
    rcases updateTask_db_cases M db req with h | ⟨task, u, hfind, hdoc, h⟩
    · simp only [handle, h]
      exact ⟨hwf, continues_refl db⟩
    · simp only [handle, h]
      obtain ⟨-, -, -, -, hid, huser, -⟩ := updateDoc_fields task req.body req.now u hdoc
      obtain ⟨hmem, -⟩ := findById_some_mem db req.id task hfind
      refine ⟨⟨?_, ?_⟩, Nat.le_refl _, ?_⟩
      · show ((saveDoc db.docs u).map (fun t => t._id)).Nodup
        rw [saveDoc_ids]
        exact hwf.1
      · intro t1 ht1
        show t1._id < db.nextId
        rcases mem_saveDoc db.docs u t1 ht1 with h1 | h1
        · exact hwf.2 t1 h1
        · rw [h1, hid]
          exact hwf.2 task hmem
      · intro t1 ht1
        rcases mem_saveDoc db.docs u t1 ht1 with h1 | h1
        · exact Or.inl ⟨t1, h1, rfl, rfl⟩
        · exact Or.inl ⟨task, hmem, by rw [h1, hid], by rw [h1, huser]⟩
  | delete req =>
    rcases deleteTask_db_cases db req with h | h
    · simp only [handle, h]
      exact ⟨hwf, continues_refl db⟩
    · simp only [handle, h]
      have hsub := deleteOne_sublist db.docs req.id
      refine ⟨⟨?_, ?_⟩, Nat.le_refl _, ?_⟩
      · exact List.Nodup.sublist (hsub.map _) hwf.1
      · intro t1 ht1
        exact hwf.2 t1 (hsub.subset ht1)
      · intro t1 ht1
        exact Or.inl ⟨t1, hsub.subset ht1, rfl, rfl⟩

theorem run_continues (M : TaskModel) (rs : List Request) :
    ∀ db : Store, db.WF → (run M db rs).WF ∧ db.Continues (run M db rs) := by
  induction rs with
  | nil => intro db hwf; exact ⟨hwf, continues_refl db⟩
  | cons r rs ih =>
    intro db hwf
    obtain ⟨hwf1, hc1⟩ := handle_continues M db r hwf
    obtain ⟨hwf2, hc2⟩ := ih (handle M db r).db hwf1
    exact ⟨hwf2, continues_trans _ _ _ hc1 hc2⟩

theorem owner_of_continues (db db1 : Store) (hwf : db.WF) (hc : db.Continues db1)
    (t t1 : Task) (ht : t ∈ db.docs) (ht1 : t1 ∈ db1.docs) (hid : t1._id = t._id) :
    t1.user = t.user := by
  rcases hc.2 t1 ht1 with ⟨t0, ht0, hid0, hu0⟩ | hnew
  · have h1 := findById_of_mem db hwf t0 ht0
    have h2 := findById_of_mem db hwf t ht
    rw [hid0, hid, h2] at h1
    cases h1
    exact hu0.symm
  · have := hwf.2 t ht
    omega

/-! ## Ownership -/

/-- C6: starting from a store with unique ids, (1) ids stay unique after every
sequence of create, update and delete requests, so a task has one document and one
owner; (2) a document that `createTask` adds to the store is owned by the caller of
that request; (3) a task present after some requests and still present after any further
requests has the same owner at both times. -/
theorem owner_never_reassigned (M : TaskModel) (db : Store) (hwf : db.WF) :
    (∀ rs, (run M db rs).WF) ∧
    (∀ rs req t, t ∈ (createTask M (run M db rs) req).db.docs → t ∉ (run M db rs).docs →
      t.user = req.user._id) ∧
    (∀ before after t t1, t ∈ (run M db before).docs →
      t1 ∈ (run M (run M db before) after).docs → t1._id = t._id → t1.user = t.user) := by
  refine ⟨fun rs => (run_continues M rs db hwf).1, ?_, ?_⟩
  · intro rs req t ht hnot
    rcases createTask_db_cases M (run M db rs) req with h | ⟨t0, hdoc, h⟩
    · rw [h] at ht
      exact absurd ht hnot
    · rw [h] at ht
      rcases List.mem_append.mp ht with h1 | h1
      · exact absurd h1 hnot
      · rw [List.mem_singleton] at h1
        rw [h1]
        exact (createDoc_ok _ req t0 hdoc).2.1
  · intro before after t t1 ht ht1 hid
    have hwf1 := (run_continues M before db hwf).1
    exact owner_of_continues _ _ hwf1 (run_continues M after _ hwf1).2 t t1 ht ht1 hid

theorem owner_never_reassigned_witness :
    ({ shipRelease with title := "A2", updatedAt := 8 } : Task) ∈
      (run laxModel (run laxModel sampleDb
        [.create ⟨⟨.str "B1", .undefined, .undefined, .undefined⟩, userB, 0, none, 6⟩])
        [.update ⟨⟨.str "mine", .undefined, .undefined, .undefined⟩, userB, 0, none, 7⟩,
         .update ⟨⟨.str "A2", .undefined, .undefined, .undefined⟩, userA, 0, none, 8⟩,
         .delete ⟨emptyBody, userA, 1, none, 9⟩]).docs ∧
    ({ shipRelease with title := "A2", updatedAt := 8 } : Task).user = shipRelease.user :=
  ⟨by decide,
    (owner_never_reassigned laxModel sampleDb (by decide)).2.2
      [.create ⟨⟨.str "B1", .undefined, .undefined, .undefined⟩, userB, 0, none, 6⟩]
      [.update ⟨⟨.str "mine", .undefined, .undefined, .undefined⟩, userB, 0, none, 7⟩,
       .update ⟨⟨.str "A2", .undefined, .undefined, .undefined⟩, userA, 0, none, 8⟩,
       .delete ⟨emptyBody, userA, 1, none, 9⟩]
      shipRelease { shipRelease with title := "A2", updatedAt := 8 } (by decide) (by decide) rfl⟩

/-! ## Broadcast failures -/

/-- C7 (as stated, refuted): the owner deletes a stored task while `io.emit` raises.
The handler answers with an error, not with its success response, and the record is
still in the store. -/
theorem deleteTask_emit_raises :
    deleteTask sampleDb ⟨emptyBody, userA, 0, some brokenIo, 9⟩ =
      ⟨sampleDb, [], .error 500 "emit failed"⟩ ∧
    sampleDb.findById 0 = some shipRelease := by
  decide

/-- C7 (amended): when no channel is registered (`req.app.get('io')` is absent), a
create, update or delete request that passes its checks and whose write the model
accepts gets its success response, and the store holds the mutation: the new
document appended, the updated document saved, the document removed. No event is
emitted. -/
theorem no_channel_still_succeeds (M : TaskModel) (db : Store) (req : Req) (hio : req.io = none) :
    (∀ t, createDoc db req = .ok t → M.validate t = true →
      createTask M db req =
        ⟨⟨db.docs ++ [t], db.nextId + 1⟩, [.dbCreate t], .json 201 (.task t)⟩) ∧
    (∀ task u, db.findById req.id = some task → task.user = req.user._id →
      updateDoc task req.body req.now = some u → M.validate u = true →
      updateTask M db req =
        ⟨⟨saveDoc db.docs u, db.nextId⟩, [.dbSave u], .json 200 (.task u)⟩) ∧
    (∀ task, db.findById req.id = some task → task.user = req.user._id →
      deleteTask db req =
        ⟨⟨deleteOne db.docs req.id, db.nextId⟩, [.dbDelete req.id],
          .json 200 (.removed "Task removed successfully" req.id)⟩) := by
  refine ⟨?_, ?_, ?_⟩
  · intro t hdoc hv
    simp [createTask, hdoc, hv, hio, withEmit]
  · intro task u hfind hown hdoc hv
    simp [updateTask, hfind, hown, hdoc, hv, hio, withEmit]
  · intro task hfind hown
    simp [deleteTask, hfind, hown, hio, withEmit]

theorem no_channel_still_succeeds_witness :
    (createTask laxModel sampleDb
        ⟨⟨.str "New", .undefined, .undefined, .undefined⟩, userA, 0, none, 9⟩ =
      ⟨⟨sampleDb.docs ++ [⟨1, "New", "", .str "todo", .null, 1, 9, 9⟩], 2⟩,
        [.dbCreate ⟨1, "New", "", .str "todo", .null, 1, 9, 9⟩],
        .json 201 (.task ⟨1, "New", "", .str "todo", .null, 1, 9, 9⟩)⟩) ∧
    (updateTask laxModel sampleDb
        ⟨⟨.str "New", .undefined, .undefined, .undefined⟩, userA, 0, none, 9⟩ =
      ⟨⟨[{ shipRelease with title := "New", updatedAt := 9 }], 1⟩,
        [.dbSave { shipRelease with title := "New", updatedAt := 9 }],
        .json 200 (.task { shipRelease with title := "New", updatedAt := 9 })⟩) ∧
    (deleteTask sampleDb ⟨⟨.str "New", .undefined, .undefined, .undefined⟩, userA, 0, none, 9⟩ =
      ⟨⟨[], 1⟩, [.dbDelete 0], .json 200 (.removed "Task removed successfully" 0)⟩) :=
  have h := no_channel_still_succeeds laxModel sampleDb
    ⟨⟨.str "New", .undefined, .undefined, .undefined⟩, userA, 0, none, 9⟩ rfl
  ⟨h.1 ⟨1, "New", "", .str "todo", .null, 1, 9, 9⟩ rfl rfl,
   h.2.1 shipRelease { shipRelease with title := "New", updatedAt := 9 } rfl rfl rfl rfl,
   h.2.2 shipRelease rfl rfl⟩

/-! ## Delete -/

theorem mem_insertNewest (a t : Task) (l : List Task) :
    t ∈ insertNewest a l ↔ t = a ∨ t ∈ l := by
  induction l with
  | nil => simp [insertNewest]
  | cons u us ih =>
    by_cases h : u.createdAt ≤ a.createdAt
    · simp [insertNewest, h]
    · simp only [insertNewest, h, if_false, List.mem_cons, ih]
      tauto

theorem mem_sortNewestFirst (t : Task) (l : List Task) : t ∈ sortNewestFirst l ↔ t ∈ l := by
  induction l with
  | nil => simp [sortNewestFirst]
  | cons a as ih => simp [sortNewestFirst, mem_insertNewest, ih]

/-- C8: when the owner deletes a stored task and the broadcast does not raise, the
effects of `deleteTask` are, in this order, the `taskDeleted` event (when a channel
is registered) carrying the request id and the stored title, then the removal; the
response carries the request id; and no list-all result contains a task with that
id, neither right afterwards nor after any further requests. -/
theorem deleteTask_by_owner (M : TaskModel) (db : Store) (req : Req) (task : Task)
    (hwf : db.WF) (hmem : task ∈ db.docs) (hid : task._id = req.id)
    (hown : task.user = req.user._id)
    (hio : ∀ ch e, req.io = some ch → ch.emitThrows e = false) :
    (deleteTask db req).log =
      (match req.io with
        | none => []
        | some _ => [.emit (.taskDeleted ("🗑️ Task deleted: \"" ++ task.title ++ "\"") req.id
            task.title req.user.name req.user._id req.now)]) ++ [.dbDelete req.id] ∧
    (deleteTask db req).res = .json 200 (.removed "Task removed successfully" req.id) ∧
    (deleteTask db req).db = ⟨deleteOne db.docs req.id, db.nextId⟩ ∧
    (∀ rs, ∀ t ∈ getAllTasks (run M (deleteTask db req).db rs), t._id ≠ req.id) := by
  have hfind : db.findById req.id = some task := hid ▸ findById_of_mem db hwf task hmem
  have hout : deleteTask db req =
      ⟨⟨deleteOne db.docs req.id, db.nextId⟩,
        (match req.io with
          | none => []
          | some _ => [.emit (.taskDeleted ("🗑️ Task deleted: \"" ++ task.title ++ "\"") req.id
              task.title req.user.name req.user._id req.now)]) ++ [.dbDelete req.id],
        .json 200 (.removed "Task removed successfully" req.id)⟩ := by
    cases hreq : req.io with
    | none => simp [deleteTask, hfind, hown, hreq, withEmit]
    | some ch => simp [deleteTask, hfind, hown, hreq, withEmit, hio ch _ hreq]
  refine ⟨by rw [hout], by rw [hout], by rw [hout], ?_⟩
  intro rs t ht
  rw [hout] at ht
  have hsub := deleteOne_sublist db.docs req.id
  have hwf1 : (⟨deleteOne db.docs req.id, db.nextId⟩ : Store).WF :=
    ⟨List.Nodup.sublist (hsub.map _) hwf.1, fun u hu => hwf.2 u (hsub.subset hu)⟩
  have hc := (run_continues M rs _ hwf1).2
  rw [getAllTasks, mem_sortNewestFirst] at ht
  rcases hc.2 t ht with ⟨t0, ht0, hid0, -⟩ | hnew
  · rw [← hid0]
    exact deleteOne_no_id db.docs req.id hwf.1 t0 ht0
  · have hlt := hwf.2 task hmem
    have hnew1 : db.nextId ≤ t._id := hnew
    omega

theorem deleteTask_by_owner_witness :
    (deleteTask sampleDb ⟨emptyBody, userA, 0, some readyIo, 9⟩).log =
      [.emit (.taskDeleted "🗑️ Task deleted: \"Ship release\"" 0 "Ship release" "A" 1 9),
       .dbDelete 0] ∧
    (deleteTask sampleDb ⟨emptyBody, userA, 0, some readyIo, 9⟩).res =
      .json 200 (.removed "Task removed successfully" 0) ∧
    (∀ t ∈ getAllTasks (run laxModel (deleteTask sampleDb
        ⟨emptyBody, userA, 0, some readyIo, 9⟩).db []), t._id ≠ 0) :=
  have h := deleteTask_by_owner laxModel sampleDb ⟨emptyBody, userA, 0, some readyIo, 9⟩
    shipRelease (by decide) (by decide) rfl rfl (fun _ _ h => by cases h; rfl)
  ⟨h.1, h.2.1, h.2.2.2 []⟩

/-! ## Titles -/

theorem dropWhile_head_not (p : Char → Bool) (l : List Char) (b : Char) (rest : List Char)
    (h : l.dropWhile p = b :: rest) : p b = false := by
  induction l with
  | nil => cases h
  | cons a as ih =>
    by_cases ha : p a = true
    · rw [List.dropWhile_cons_of_pos ha] at h
      exact ih h
    · rw [List.dropWhile_cons_of_neg ha] at h
      cases h
      simpa using ha

theorem trimChars_idem (l : List Char) : trimChars (trimChars l) = trimChars l := by
  have hpre : trimChars l <+: l.dropWhile isJsWhitespace :=
    List.rdropWhile_prefix isJsWhitespace (l.dropWhile isJsWhitespace)
  have hdrop : (trimChars l).dropWhile isJsWhitespace = trimChars l := by
    cases hB : trimChars l with
    | nil => rfl
    | cons b rest =>
      obtain ⟨tl, htl⟩ := hpre
      rw [hB] at htl
      have hb := dropWhile_head_not isJsWhitespace l b (rest ++ tl) htl.symm
      exact List.dropWhile_cons_of_neg (by simp [hb])
  show List.rdropWhile isJsWhitespace ((trimChars l).dropWhile isJsWhitespace) = trimChars l
  rw [hdrop]
  exact List.rdropWhile_idempotent isJsWhitespace (l.dropWhile isJsWhitespace)

theorem jsTrim_idem (s : String) : jsTrim (jsTrim s) = jsTrim s := by
  show (⟨trimChars (trimChars s.data)⟩ : String) = ⟨trimChars s.data⟩
  rw [trimChars_idem]

/-- The title `createTask` stores is still non-empty when trimmed again, so the
create path keeps every stored title non-blank. -/
theorem createTask_keeps_titlesNonBlank (M : TaskModel) (db : Store) (req : Req)
    (h : db.titlesNonBlank) : (createTask M db req).db.titlesNonBlank := by
  rcases createTask_db_cases M db req with h1 | ⟨t, hdoc, h1⟩
  · rw [h1]
    exact h
  · rw [h1]
    intro u hu
    rcases List.mem_append.mp hu with hmem | hmem
    · exact h u hmem
    · rw [List.mem_singleton] at hmem
      obtain ⟨-, -, hne, s, -, hs⟩ := createDoc_ok db req t hdoc
      rw [hmem, hs, jsTrim_idem, ← hs]
      exact hne

/-- The handler has no title guard of its own on update: on a model that accepts
every document, a title of three spaces sent by the owner is answered 200 and the
stored title is the empty string. Whether such a write goes through is decided by
the schema, not by `updateTask`. -/
theorem updateTask_on_laxModel_stores_blank_title :
    sampleDb.titlesNonBlank ∧
    updateTask laxModel sampleDb
        ⟨⟨.str "   ", .undefined, .undefined, .undefined⟩, userA, 0, none, 9⟩ =
      ⟨⟨[{ shipRelease with title := "", updatedAt := 9 }], 1⟩,
        [.dbSave { shipRelease with title := "", updatedAt := 9 }],
        .json 200 (.task { shipRelease with title := "", updatedAt := 9 })⟩ ∧
    ¬ (updateTask laxModel sampleDb
        ⟨⟨.str "   ", .undefined, .undefined, .undefined⟩, userA, 0, none, 9⟩).db.titlesNonBlank := by
  decide

/-- The store after `updateTask`: as given, or with a document saved that the model
has accepted. -/
theorem updateTask_saved_valid (M : TaskModel) (db : Store) (req : Req) :
    (updateTask M db req).db = db ∨
    ∃ task u, db.findById req.id = some task ∧ updateDoc task req.body req.now = some u ∧
      M.validate u = true ∧ (updateTask M db req).db = ⟨saveDoc db.docs u, db.nextId⟩ := by
  cases hfind : db.findById req.id with
  | none => left; simp [updateTask, hfind, throwWith]
  | some task =>
    by_cases hown : task.user = req.user._id
    · cases hdoc : updateDoc task req.body req.now with
      | none => left; simp [updateTask, hfind, hown, hdoc, throwWith]
      | some u =>
        by_cases hv : M.validate u = true
        · right
          exact ⟨task, u, rfl, hdoc, hv, updateTask_db M db req task u hfind hown hdoc hv⟩
        · left; simp [updateTask, hfind, hown, hdoc, hv, throwWith]
    · left; simp [updateTask, hfind, hown, throwWith]

/-- C9: with a task model that refuses a title that is empty after trimming, as the
data model of the spec has it, every stored title stays non-empty after trimming:
(1) `createTask` keeps the property, and does so for every model, by its own guard;
(2) `updateTask` keeps it for every request body; (3) an update by the owner whose
title is a non-empty string of whitespace only is answered 500, performs no effect
and leaves the store as given. -/
theorem titles_stay_nonblank (M : TaskModel) (db : Store) (req : Req)
    (hM : ∀ t, M.validate t = true → jsTrim t.title ≠ "") (h : db.titlesNonBlank) :
    (∀ M1 : TaskModel, (createTask M1 db req).db.titlesNonBlank) ∧
    (updateTask M db req).db.titlesNonBlank ∧
    (∀ task s, db.findById req.id = some task → task.user = req.user._id →
      req.body.title = .str s → s ≠ "" → jsTrim s = "" →
      ∃ message, updateTask M db req = ⟨db, [], .error 500 message⟩) := by
  refine ⟨fun M1 => createTask_keeps_titlesNonBlank M1 db req h, ?_, ?_⟩
  · rcases updateTask_saved_valid M db req with h1 | ⟨task, u, -, -, hv, h1⟩
    · rw [h1]
      exact h
    · rw [h1]
      intro t ht
      rcases mem_saveDoc db.docs u t ht with hmem | rfl
      · exact h t hmem
      · exact hM t hv
  · intro task s hfind hown htitle hne hblank
    cases hdoc : updateDoc task req.body req.now with
    | none => exact ⟨"TypeError", by simp [updateTask, hfind, hown, hdoc, throwWith]⟩
    | some u =>
      obtain ⟨f1, -⟩ := updateDoc_fields task req.body req.now u hdoc
      simp only [htitle, JsVal.truthy, JsVal.trim, bne_iff_ne, ne_eq, hne, not_false_eq_true,
        if_true, Option.some.injEq, hblank] at f1
      have hv : M.validate u = false := by
        cases hval : M.validate u with
        | false => rfl
        | true =>
          exfalso
          apply hM u hval
          rw [← f1]
          rfl
      exact ⟨"ValidationError", by simp [updateTask, hfind, hown, hdoc, hv, throwWith]⟩

theorem titles_stay_nonblank_witness :
    (updateTask specTaskModel sampleDb
        ⟨⟨.str "   ", .undefined, .undefined, .undefined⟩, userA, 0, none, 9⟩).db.titlesNonBlank ∧
    ∃ message, updateTask specTaskModel sampleDb
        ⟨⟨.str "   ", .undefined, .undefined, .undefined⟩, userA, 0, none, 9⟩ =
      ⟨sampleDb, [], .error 500 message⟩ :=
  have h := titles_stay_nonblank specTaskModel sampleDb
    ⟨⟨.str "   ", .undefined, .undefined, .undefined⟩, userA, 0, none, 9⟩
    (fun t ht => by
      simp only [specTaskModel, Bool.and_eq_true, decide_eq_true_eq] at ht
      exact ht.1)
    (by decide)
  ⟨h.2.1, h.2.2 shipRelease "   " rfl rfl rfl (by decide) (by decide)⟩

/-! ## Client reconciliation -/

/-- C10 (failing input, every state and task): applying `taskCreated` a second time
with the same task never gives the state of a single application; each collection
is one entry longer. -/
theorem taskCreated_not_idempotent (state : TasksState) (task : Task) :
    taskCreated (taskCreated state task) task ≠ taskCreated state task ∧
    (taskCreated (taskCreated state task) task).tasks = task :: task :: state.tasks ∧
    (taskCreated (taskCreated state task) task).allTasks = task :: task :: state.allTasks := by
  refine ⟨?_, rfl, rfl⟩
  intro h
  have hlen := congrArg (fun s => s.tasks.length) h
  simp [taskCreated] at hlen

theorem replaceFound_eq_saveDoc (l : List Task) (p : Task) : replaceFound l p = saveDoc l p := by
  induction l with
  | nil => rfl
  | cons a as ih =>
    by_cases h : a._id = p._id
    · simp [replaceFound, findIndex, saveDoc, h]
    · unfold replaceFound at ih
      cases hf : findIndex as p._id with
      | none =>
        rw [hf] at ih
        simp only [replaceFound, findIndex, saveDoc, h, if_false, hf, Option.map_none']
        rw [← ih]
      | some i =>
        rw [hf] at ih
        simp only [replaceFound, findIndex, saveDoc, h, if_false, hf, Option.map_some',
          List.set_cons_succ]
        rw [← ih]

theorem saveDoc_idem (l : List Task) (p : Task) : saveDoc (saveDoc l p) p = saveDoc l p := by
  induction l with
  | nil => rfl
  | cons a as ih =>
    by_cases h : a._id = p._id
    · simp [saveDoc, h]
    · simp [saveDoc, h, ih]

theorem saveDoc_of_absent (l : List Task) (p : Task) (h : ∀ t ∈ l, t._id ≠ p._id) :
    saveDoc l p = l := by
  induction l with
  | nil => rfl
  | cons a as ih =>
    have ha : a._id ≠ p._id := h a (List.mem_cons_self _ _)
    simp only [saveDoc, ha, if_false]
    rw [ih (fun t ht => h t (List.mem_cons_of_mem _ ht))]

/-- C11: on every state, `taskUpdated` with the same payload and `taskDeleted` with
the same id are idempotent: the second application changes nothing. -/
theorem taskUpdated_taskDeleted_idempotent (state : TasksState) (payload : Task) (id : Nat) :
    taskUpdated (taskUpdated state payload) payload = taskUpdated state payload ∧
    taskDeleted (taskDeleted state id) id = taskDeleted state id := by
  constructor
  · simp only [taskUpdated, replaceFound_eq_saveDoc, saveDoc_idem]
  · simp [taskDeleted, List.filter_filter]

/-- C12: `taskUpdated` leaves a collection that has no entry with the payload id as
it was, of the same length and with no new entry; when neither collection has the id
the whole state is unchanged. -/
theorem taskUpdated_miss_is_noop (state : TasksState) (payload : Task) :
    ((∀ t ∈ state.tasks, t._id ≠ payload._id) →
      (taskUpdated state payload).tasks = state.tasks) ∧
    ((∀ t ∈ state.allTasks, t._id ≠ payload._id) →
      (taskUpdated state payload).allTasks = state.allTasks) ∧
    ((∀ t ∈ state.tasks, t._id ≠ payload._id) → (∀ t ∈ state.allTasks, t._id ≠ payload._id) →
      taskUpdated state payload = state) := by
  refine ⟨?_, ?_, ?_⟩
  · intro h
    simp only [taskUpdated, replaceFound_eq_saveDoc, saveDoc_of_absent _ _ h]
  · intro h
    simp only [taskUpdated, replaceFound_eq_saveDoc, saveDoc_of_absent _ _ h]
  · intro h1 h2
    simp only [taskUpdated, replaceFound_eq_saveDoc, saveDoc_of_absent _ _ h1,
      saveDoc_of_absent _ _ h2]

theorem taskUpdated_miss_is_noop_witness :
    taskUpdated ⟨[shipRelease], [shipRelease], false, none⟩
        { shipRelease with _id := 7, title := "other" } =
      ⟨[shipRelease], [shipRelease], false, none⟩ :=
  (taskUpdated_miss_is_noop ⟨[shipRelease], [shipRelease], false, none⟩
    { shipRelease with _id := 7, title := "other" }).2.2 (by decide) (by decide)

theorem filter_by_id (l : List Task) (id : Nat) :
    (l.filter (fun task => task._id != id)).Sublist l ∧
    (∀ t, t ∈ l.filter (fun task => task._id != id) ↔ t ∈ l ∧ t._id ≠ id) ∧
    (∀ t, t._id ≠ id → (l.filter (fun task => task._id != id)).count t = l.count t) ∧
    ((∀ t ∈ l, t._id ≠ id) → l.filter (fun task => task._id != id) = l) := by
  refine ⟨List.filter_sublist l, ?_, ?_, ?_⟩
  · intro t
    simp [List.mem_filter]
  · intro t ht
    exact List.count_filter (by simpa using ht)
  · intro h
    rw [List.filter_eq_self]
    intro a ha
    simpa using h a ha

/-- C13: after `taskDeleted` each of the two collections is a sublist of the
previous one (same relative order), holds exactly the previous entries whose id
differs from the given one, each as many times as before, and is the previous
collection itself when no entry has the id; `loading` and `error` are untouched. -/
theorem taskDeleted_removes_exactly (state : TasksState) (id : Nat) :
    ((taskDeleted state id).tasks.Sublist state.tasks ∧
      (∀ t, t ∈ (taskDeleted state id).tasks ↔ t ∈ state.tasks ∧ t._id ≠ id) ∧
      (∀ t, t._id ≠ id → (taskDeleted state id).tasks.count t = state.tasks.count t) ∧
      ((∀ t ∈ state.tasks, t._id ≠ id) → (taskDeleted state id).tasks = state.tasks)) ∧
    ((taskDeleted state id).allTasks.Sublist state.allTasks ∧
      (∀ t, t ∈ (taskDeleted state id).allTasks ↔ t ∈ state.allTasks ∧ t._id ≠ id) ∧
      (∀ t, t._id ≠ id → (taskDeleted state id).allTasks.count t = state.allTasks.count t) ∧
      ((∀ t ∈ state.allTasks, t._id ≠ id) →
        (taskDeleted state id).allTasks = state.allTasks)) ∧
    (taskDeleted state id).loading = state.loading ∧
    (taskDeleted state id).error = state.error :=
  ⟨filter_by_id state.tasks id, filter_by_id state.allTasks id, rfl, rfl⟩

theorem taskDeleted_removes_exactly_witness :
    (taskDeleted ⟨[shipRelease], [{ shipRelease with _id := 3 }, shipRelease], false, none⟩
        3).tasks = [shipRelease] ∧
    (taskDeleted ⟨[shipRelease], [{ shipRelease with _id := 3 }, shipRelease], false, none⟩
        3).allTasks.count shipRelease = 1 :=
  have h := taskDeleted_removes_exactly
    ⟨[shipRelease], [{ shipRelease with _id := 3 }, shipRelease], false, none⟩ 3
  ⟨h.1.2.2.2 (by decide), (h.2.1.2.2.1 shipRelease (by decide)).trans (by decide)⟩

theorem findIndex_spec (l : List Task) (id : Nat) :
    ∀ i, findIndex l id = some i →
      i < l.length ∧ (∃ t, l[i]? = some t ∧ t._id = id) ∧
      ∀ j, j < i → ∀ t, l[j]? = some t → t._id ≠ id := by
  induction l with
  | nil => intro i h; cases h
  | cons a as ih =>
    intro i h
    by_cases ha : a._id = id
    · simp only [findIndex, ha, if_true, Option.some.injEq] at h
      subst h
      exact ⟨by simp, ⟨a, by simp, ha⟩, fun j hj => absurd hj (Nat.not_lt_zero j)⟩
    · simp only [findIndex, ha, if_false] at h
      cases hf : findIndex as id with
      | none => rw [hf] at h; cases h
      | some k =>
        rw [hf] at h
        simp only [Option.map_some', Option.some.injEq] at h
        subst h
        obtain ⟨h1, ⟨t, h2, h3⟩, h4⟩ := ih k hf
        refine ⟨by simpa using h1, ⟨t, by simpa using h2, h3⟩, ?_⟩
        intro j hj u hu
        cases j with
        | zero =>
          simp only [List.getElem?_cons_zero, Option.some.injEq] at hu
          subst hu
          exact ha
        | succ j =>
          simp only [List.getElem?_cons_succ] at hu
          exact h4 j (by omega) u hu

theorem findIndex_of_mem (l : List Task) (id : Nat) (h : ∃ t ∈ l, t._id = id) :
    ∃ i, findIndex l id = some i := by
  induction l with
  | nil =>
    obtain ⟨t, ht, -⟩ := h
    cases ht
  | cons a as ih =>
    by_cases ha : a._id = id
    · exact ⟨0, by simp [findIndex, ha]⟩
    · obtain ⟨t, ht, hid⟩ := h
      rcases List.mem_cons.mp ht with rfl | hmem
      · exact absurd hid ha
      · obtain ⟨i, hi⟩ := ih ⟨t, hmem, hid⟩
        exact ⟨i + 1, by simp [findIndex, ha, hi]⟩

theorem saveDoc_unique (l : List Task) (p : Task) (h : (l.map (fun t => t._id)).Nodup) :
    ∀ t ∈ saveDoc l p, t._id = p._id → t = p := by
  induction l with
  | nil => intro t ht; cases ht
  | cons a as ih =>
    rw [List.map_cons, List.nodup_cons] at h
    intro t ht hid
    by_cases ha : a._id = p._id
    · simp only [saveDoc, ha, if_true, List.mem_cons] at ht
      rcases ht with rfl | ht
      · rfl
      · have hmem : t._id ∈ as.map (fun u => u._id) := List.mem_map_of_mem (fun u => u._id) ht
        rw [hid, ← ha] at hmem
        exact absurd hmem h.1
    · simp only [saveDoc, ha, if_false, List.mem_cons] at ht
      rcases ht with rfl | ht
      · exact absurd hid ha
      · exact ih h.2 t ht hid

/-- What `taskUpdated` does to one collection that holds an entry with the payload id. -/
theorem replaceFound_at (l : List Task) (p : Task) (h : ∃ t ∈ l, t._id = p._id) :
    ∃ i, findIndex l p._id = some i ∧ i < l.length ∧
      (∃ t, l[i]? = some t ∧ t._id = p._id) ∧
      (∀ j, j < i → ∀ t, l[j]? = some t → t._id ≠ p._id) ∧
      (replaceFound l p).length = l.length ∧
      (replaceFound l p)[i]? = some p ∧
      (∀ j, j ≠ i → (replaceFound l p)[j]? = l[j]?) ∧
      ((l.map (fun t => t._id)).Nodup → ∀ t ∈ replaceFound l p, t._id = p._id → t = p) := by
  obtain ⟨i, hi⟩ := findIndex_of_mem l p._id h
  obtain ⟨h1, h2, h3⟩ := findIndex_spec l p._id i hi
  refine ⟨i, hi, h1, h2, h3, ?_, ?_, ?_, ?_⟩
  · simp [replaceFound, hi]
  · simp [replaceFound, hi, h1]
  · intro j hj
    simp only [replaceFound, hi]
    exact List.getElem?_set_ne (Ne.symm hj)
  · intro hnd
    rw [replaceFound_eq_saveDoc]
    exact saveDoc_unique l p hnd

/-- C14: when a collection of the state holds an entry with the payload id, after
`taskUpdated` the collection has the same length, the payload stands at the index of
the first such entry, every other index holds what it held, and, when ids in the
collection are unique, every entry with that id is the payload. Stated for `tasks`
and for `allTasks`. -/
theorem taskUpdated_replaces_in_place (state : TasksState) (payload : Task) :
    ((∃ t ∈ state.tasks, t._id = payload._id) →
      ∃ i, findIndex state.tasks payload._id = some i ∧ i < state.tasks.length ∧
        (∃ t, state.tasks[i]? = some t ∧ t._id = payload._id) ∧
        (∀ j, j < i → ∀ t, state.tasks[j]? = some t → t._id ≠ payload._id) ∧
        (taskUpdated state payload).tasks.length = state.tasks.length ∧
        (taskUpdated state payload).tasks[i]? = some payload ∧
        (∀ j, j ≠ i → (taskUpdated state payload).tasks[j]? = state.tasks[j]?) ∧
        ((state.tasks.map (fun t => t._id)).Nodup →
          ∀ t ∈ (taskUpdated state payload).tasks, t._id = payload._id → t = payload)) ∧
    ((∃ t ∈ state.allTasks, t._id = payload._id) →
      ∃ i, findIndex state.allTasks payload._id = some i ∧ i < state.allTasks.length ∧
        (∃ t, state.allTasks[i]? = some t ∧ t._id = payload._id) ∧
        (∀ j, j < i → ∀ t, state.allTasks[j]? = some t → t._id ≠ payload._id) ∧
        (taskUpdated state payload).allTasks.length = state.allTasks.length ∧
        (taskUpdated state payload).allTasks[i]? = some payload ∧
        (∀ j, j ≠ i → (taskUpdated state payload).allTasks[j]? = state.allTasks[j]?) ∧
        ((state.allTasks.map (fun t => t._id)).Nodup →
          ∀ t ∈ (taskUpdated state payload).allTasks, t._id = payload._id → t = payload)) :=
  ⟨fun h => replaceFound_at state.tasks payload h,
   fun h => replaceFound_at state.allTasks payload h⟩

theorem taskUpdated_replaces_in_place_witness :
    ∃ i, findIndex [{ shipRelease with _id := 3 }, shipRelease] 0 = some i ∧
      (taskUpdated ⟨[], [{ shipRelease with _id := 3 }, shipRelease], false, none⟩
        { shipRelease with title := "v2" }).allTasks[i]? =
        some { shipRelease with title := "v2" } ∧
      (taskUpdated ⟨[], [{ shipRelease with _id := 3 }, shipRelease], false, none⟩
        { shipRelease with title := "v2" }).allTasks.length = 2 := by
  obtain ⟨i, h1, -, -, -, h5, h6, -, -⟩ := (taskUpdated_replaces_in_place
    ⟨[], [{ shipRelease with _id := 3 }, shipRelease], false, none⟩
    { shipRelease with title := "v2" }).2 ⟨shipRelease, by decide, rfl⟩
  exact ⟨i, h1, h6, h5⟩

/-- C15: for create, update and delete, the reducer run on the fulfilled HTTP
response and the reducer run on the broadcast event give the same next state, on
every state and payload. -/
theorem fulfilled_eq_broadcast :
    (∀ state payload, createTask.fulfilled state payload = taskCreated state payload) ∧
    (∀ state payload, updateTask.fulfilled state payload = taskUpdated state payload) ∧
    (∀ state payload, deleteTask.fulfilled state payload = taskDeleted state payload) :=
  ⟨fun _ _ => rfl, fun _ _ => rfl, fun _ _ => rfl⟩

/-! ## Connected-client registry -/

theorem mem_keys_mapSet (m : List (Nat × RosterEntry)) (k : Nat) (v : RosterEntry) (k1 : Nat) :
    k1 ∈ (mapSet m k v).map (fun e => e.1) ↔ k1 = k ∨ k1 ∈ m.map (fun e => e.1) := by
  induction m with
  | nil => simp [mapSet]
  | cons a rest ih =>
    obtain ⟨k0, v0⟩ := a
    by_cases h : k0 = k
    · subst h
      simp [mapSet]
    · simp only [mapSet, h, if_false, List.map_cons, List.mem_cons, ih]
      tauto

theorem nodup_keys_mapSet (m : List (Nat × RosterEntry)) (k : Nat) (v : RosterEntry)
    (h : (m.map (fun e => e.1)).Nodup) : ((mapSet m k v).map (fun e => e.1)).Nodup := by
  induction m with
  | nil => simp [mapSet]
  | cons a rest ih =>
    obtain ⟨k0, v0⟩ := a
    rw [List.map_cons, List.nodup_cons] at h
    by_cases hk : k0 = k
    · subst hk
      simp only [mapSet, if_true, List.map_cons, List.nodup_cons]
      exact h
    · simp only [mapSet, hk, if_false, List.map_cons, List.nodup_cons]
      refine ⟨?_, ih h.2⟩
      rw [mem_keys_mapSet]
      rintro (h1 | h1)
      · exact hk h1
      · exact h.1 h1

theorem mem_keys_mapDelete (m : List (Nat × RosterEntry)) (k k1 : Nat) :
    k1 ∈ (mapDelete m k).map (fun e => e.1) ↔ k1 ∈ m.map (fun e => e.1) ∧ k1 ≠ k := by
  simp only [mapDelete, List.mem_map, List.mem_filter]
  constructor
  · rintro ⟨e, ⟨he, hne⟩, rfl⟩
    exact ⟨⟨e, he, rfl⟩, by simpa using hne⟩
  · rintro ⟨⟨e, he, rfl⟩, hne⟩
    exact ⟨e, ⟨he, by simpa using hne⟩, rfl⟩

theorem nodup_keys_mapDelete (m : List (Nat × RosterEntry)) (k : Nat)
    (h : (m.map (fun e => e.1)).Nodup) : ((mapDelete m k).map (fun e => e.1)).Nodup :=
  List.Nodup.sublist ((List.filter_sublist m).map _) h

theorem mapGet_eq_none_iff (m : List (Nat × RosterEntry)) (k : Nat) :
    mapGet m k = none ↔ k ∉ m.map (fun e => e.1) := by
  simp only [mapGet, Option.map_eq_none', List.find?_eq_none, List.mem_map]
  constructor
  · rintro h ⟨e, he, rfl⟩
    exact h e he (by simp)
  · intro h e he hk
    exact h ⟨e, he, by simpa using hk⟩

theorem mapDelete_of_absent (m : List (Nat × RosterEntry)) (k : Nat)
    (h : k ∉ m.map (fun e => e.1)) : mapDelete m k = m := by
  unfold mapDelete
  rw [List.filter_eq_self]
  intro e he
  have : e.1 ≠ k := fun hk => h (hk ▸ List.mem_map_of_mem (fun e => e.1) he)
  simpa using this

/-- The registry after a disconnect is the registry with the socket's key deleted,
whether or not the key was there. -/
theorem registry_after_disconnect (m : List (Nat × RosterEntry)) (socketId : Nat) :
    (onSocketEvent m (.disconnect socketId)).1 = mapDelete m socketId := by
  cases h : mapGet m socketId with
  | none =>
    simp only [onSocketEvent, h]
    exact (mapDelete_of_absent m socketId ((mapGet_eq_none_iff m socketId).mp h)).symm
  | some v => simp only [onSocketEvent, h]

theorem registryAfter_append (events : List SocketEvent) (e : SocketEvent) :
    registryAfter (events ++ [e]) = (onSocketEvent (registryAfter events) e).1 := by
  simp [registryAfter, List.foldl_append]

/-- A connection is live after a trace extended by one event exactly when that event
is its announce, or it was live before and the event is not its disconnect. -/
theorem live_append (events : List SocketEvent) (e : SocketEvent) (socketId : Nat) :
    (∃ before d after, events ++ [e] = before ++ .user_connected socketId d :: after ∧
        SocketEvent.disconnect socketId ∉ after) ↔
      (∃ d, e = .user_connected socketId d) ∨
      ((∃ before d after, events = before ++ .user_connected socketId d :: after ∧
        SocketEvent.disconnect socketId ∉ after) ∧ e ≠ .disconnect socketId) := by
  constructor
  · rintro ⟨before, d, after, heq, hnot⟩
    rcases List.eq_nil_or_concat after with rfl | ⟨init, x, rfl⟩
    · obtain ⟨-, h2⟩ := List.append_inj' heq rfl
      exact Or.inl ⟨d, by simpa using h2⟩
    · rw [List.concat_eq_append] at heq hnot
      have heq1 : events ++ [e] = (before ++ .user_connected socketId d :: init) ++ [x] := by
        simpa using heq
      obtain ⟨h1, h2⟩ := List.append_inj' heq1 rfl
      have hx : e = x := by simpa using h2
      simp only [List.mem_append, List.mem_singleton, not_or] at hnot
      exact Or.inr ⟨⟨before, d, init, h1, hnot.1⟩, by rw [hx]; exact fun h => hnot.2 h.symm⟩
  · rintro (⟨d, rfl⟩ | ⟨⟨before, d, after, heq, hnot⟩, hne⟩)
    · exact ⟨events, d, [], rfl, by simp⟩
    · refine ⟨before, d, after ++ [e], by simp [heq], ?_⟩
      simp only [List.mem_append, List.mem_singleton, not_or]
      exact ⟨hnot, fun h => hne h.symm⟩

/-- Keys of the registry: unique, and exactly the connections that announced
themselves and did not disconnect since. -/
theorem registry_keys (events : List SocketEvent) :
    ((registryAfter events).map (fun e => e.1)).Nodup ∧
    ∀ socketId, socketId ∈ (registryAfter events).map (fun e => e.1) ↔
      ∃ before d after, events = before ++ .user_connected socketId d :: after ∧
        SocketEvent.disconnect socketId ∉ after := by
  induction events using List.reverseRecOn with
  | nil =>
    refine ⟨by simp [registryAfter], ?_⟩
    intro socketId
    simp [registryAfter]
  | append_singleton events e ih =>
    obtain ⟨hnd, hmem⟩ := ih
    rw [registryAfter_append]
    cases e with
    | connection s =>
      refine ⟨hnd, ?_⟩
      intro socketId
      rw [live_append, ← hmem]
      simp [onSocketEvent]
    | user_connected s d =>
      refine ⟨nodup_keys_mapSet _ _ _ hnd, ?_⟩
      intro socketId
      rw [live_append, ← hmem]
      simp only [onSocketEvent, mem_keys_mapSet]
      constructor
      · rintro (h | h)
        · exact Or.inl ⟨d, by rw [h]⟩
        · exact Or.inr ⟨h, by simp⟩
      · rintro (⟨d1, h⟩ | ⟨h, -⟩)
        · cases h
          exact Or.inl rfl
        · exact Or.inr h
    | disconnect s =>
      rw [registry_after_disconnect]
      refine ⟨nodup_keys_mapDelete _ _ hnd, ?_⟩
      intro socketId
      rw [live_append, ← hmem, mem_keys_mapDelete]
      constructor
      · rintro ⟨h1, h2⟩
        exact Or.inr ⟨h1, fun h => h2 (by cases h; rfl)⟩
      · rintro (⟨d1, h⟩ | ⟨h1, h2⟩)
        · cases h
        · exact ⟨h1, fun h => h2 (by rw [h])⟩

/-- What a `users_update` event carries: the size and the values of the registry as
it is right after the event that triggered it. -/
theorem users_update_payload (m : List (Nat × RosterEntry)) (e : SocketEvent) (u : UsersUpdate)
    (hu : u ∈ (onSocketEvent m e).2) :
    u.count = (onSocketEvent m e).1.length ∧
    u.users = (onSocketEvent m e).1.map (fun x => x.2) := by
  cases e with
  | connection s => simp [onSocketEvent] at hu
  | user_connected s d =>
    simp only [onSocketEvent, List.mem_singleton] at hu
    subst hu
    exact ⟨rfl, rfl⟩
  | disconnect s =>
    cases h : mapGet m s with
    | none => simp [onSocketEvent, h] at hu
    | some v =>
      simp only [onSocketEvent, h, List.mem_singleton] at hu
      subst hu
      simp only [onSocketEvent, h]
      exact ⟨trivial, trivial⟩

/-- C16: (1) after any sequence of connect, announce and disconnect events, every
`users_update` event a further event triggers carries a count equal to the length of
its roster snapshot and equal to the number of connections that have announced
themselves and not disconnected since (the length of a duplicate-free list holding
exactly those connections); (2) announces from two distinct connections give count
1 then 2, and the disconnect of the first then gives count 1. -/
theorem users_update_count :
    (∀ (events : List SocketEvent) (e : SocketEvent) (u : UsersUpdate),
      u ∈ (onSocketEvent (registryAfter events) e).2 →
        u.count = u.users.length ∧
        ∃ live : List Nat, live.Nodup ∧ u.count = live.length ∧
          ∀ socketId, socketId ∈ live ↔
            ∃ before d after,
              events ++ [e] = before ++ SocketEvent.user_connected socketId d :: after ∧
              SocketEvent.disconnect socketId ∉ after) ∧
    (∀ (s1 s2 : Nat) (d1 d2 : UserData), s1 ≠ s2 →
      (onSocketEvent (registryAfter [.connection s1, .connection s2])
          (.user_connected s1 d1)).2 = [⟨1, [⟨d1.userId, d1.userName, s1⟩]⟩] ∧
      (onSocketEvent (registryAfter [.connection s1, .connection s2, .user_connected s1 d1])
          (.user_connected s2 d2)).2 =
        [⟨2, [⟨d1.userId, d1.userName, s1⟩, ⟨d2.userId, d2.userName, s2⟩]⟩] ∧
      (onSocketEvent (registryAfter [.connection s1, .connection s2, .user_connected s1 d1,
          .user_connected s2 d2]) (.disconnect s1)).2 =
        [⟨1, [⟨d2.userId, d2.userName, s2⟩]⟩]) := by
  constructor
  · intro events e u hu
    obtain ⟨hc, hus⟩ := users_update_payload _ e u hu
    obtain ⟨hnd, hmem⟩ := registry_keys (events ++ [e])
    rw [registryAfter_append] at hnd hmem
    refine ⟨by rw [hc, hus, List.length_map], _, hnd, by rw [hc, List.length_map], hmem⟩
  · intro s1 s2 d1 d2 hne
    have hne2 : s2 ≠ s1 := fun h => hne h.symm
    refine ⟨?_, ?_, ?_⟩
    · simp [registryAfter, onSocketEvent, mapSet]
    · simp [registryAfter, onSocketEvent, mapSet, hne]
    · simp [registryAfter, onSocketEvent, mapSet, mapGet, mapDelete, hne, hne2]

theorem users_update_count_witness :
    (⟨1, [⟨20, "B", 8⟩]⟩ : UsersUpdate).count = 1 ∧
    (onSocketEvent (registryAfter [.connection 7, .connection 8, .user_connected 7 ⟨10, "A"⟩,
      .user_connected 8 ⟨20, "B"⟩]) (.disconnect 7)).2 = [⟨1, [⟨20, "B", 8⟩]⟩] ∧
    ∃ live : List Nat, live.Nodup ∧ (⟨1, [⟨20, "B", 8⟩]⟩ : UsersUpdate).count = live.length ∧
      ∀ socketId, socketId ∈ live ↔
        ∃ before d after,
          [SocketEvent.connection 7, .connection 8, .user_connected 7 ⟨10, "A"⟩,
            .user_connected 8 ⟨20, "B"⟩] ++ [.disconnect 7] =
            before ++ SocketEvent.user_connected socketId d :: after ∧
          SocketEvent.disconnect socketId ∉ after :=
  ⟨rfl,
   (users_update_count.2 7 8 ⟨10, "A"⟩ ⟨20, "B"⟩ (by decide)).2.2,
   (users_update_count.1
      [.connection 7, .connection 8, .user_connected 7 ⟨10, "A"⟩, .user_connected 8 ⟨20, "B"⟩]
      (.disconnect 7) ⟨1, [⟨20, "B", 8⟩]⟩ (by decide)).2⟩

/-- C17 (as stated, refuted): a connection that never announced itself disconnects and
no `users_update` is emitted. -/
theorem disconnect_without_announce_is_silent :
    (onSocketEvent (registryAfter [.connection 7, .user_connected 7 ⟨10, "A"⟩, .connection 8])
      (.disconnect 8)).2 = [] := by
  decide

/-- C17 (amended): after any sequence of events, an announce is followed by exactly one
`users_update`; the disconnect of a connection that has announced itself and not
disconnected since is followed by exactly one `users_update`; the disconnect of any
other connection emits nothing and leaves the registry as it was. -/
theorem users_update_emission (events : List SocketEvent) (socketId : Nat) (d : UserData) :
    (∃ u, (onSocketEvent (registryAfter events) (.user_connected socketId d)).2 = [u]) ∧
    ((∃ before d1 after, events = before ++ .user_connected socketId d1 :: after ∧
        SocketEvent.disconnect socketId ∉ after) →
      ∃ u, (onSocketEvent (registryAfter events) (.disconnect socketId)).2 = [u]) ∧
    ((¬ ∃ before d1 after, events = before ++ .user_connected socketId d1 :: after ∧
        SocketEvent.disconnect socketId ∉ after) →
      onSocketEvent (registryAfter events) (.disconnect socketId) =
        (registryAfter events, [])) := by
  obtain ⟨-, hmem⟩ := registry_keys events
  refine ⟨⟨_, rfl⟩, ?_, ?_⟩
  · intro hlive
    have hin := (hmem socketId).mpr hlive
    cases h : mapGet (registryAfter events) socketId with
    | none => exact absurd hin ((mapGet_eq_none_iff _ _).mp h)
    | some v =>
      refine ⟨⟨(mapDelete (registryAfter events) socketId).length,
        (mapDelete (registryAfter events) socketId).map (fun e => e.2)⟩, ?_⟩
      simp only [onSocketEvent, h]
  · intro hnot
    have hout : socketId ∉ (registryAfter events).map (fun e => e.1) :=
      fun hin => hnot ((hmem socketId).mp hin)
    simp only [onSocketEvent, (mapGet_eq_none_iff _ _).mpr hout]

theorem users_update_emission_witness :
    (∃ u, (onSocketEvent (registryAfter [.connection 7, .user_connected 7 ⟨10, "A"⟩])
      (.disconnect 7)).2 = [u]) ∧
    onSocketEvent (registryAfter [.connection 7, .user_connected 7 ⟨10, "A"⟩])
      (.disconnect 8) = (registryAfter [.connection 7, .user_connected 7 ⟨10, "A"⟩], []) :=
  ⟨(users_update_emission [.connection 7, .user_connected 7 ⟨10, "A"⟩] 7 ⟨10, "A"⟩).2.1
      ⟨[.connection 7], ⟨10, "A"⟩, [], rfl, by simp⟩,
   (users_update_emission [.connection 7, .user_connected 7 ⟨10, "A"⟩] 8 ⟨10, "A"⟩).2.2
      (by
        rintro ⟨before, d1, after, heq, -⟩
        have hmem : SocketEvent.user_connected 8 d1 ∈
            [SocketEvent.connection 7, .user_connected 7 ⟨10, "A"⟩] := by
          rw [heq]
          simp
        simp at hmem)⟩

/-! ## Who receives a broadcast -/

theorem mem_fanout (connected : List Nat) (events : List Event) (s : Nat) (e : Event)
    (hs : s ∈ connected) (he : e ∈ events) :
    (s, e) ∈ events.foldr (fun e acc => connected.map (fun s => (s, e)) ++ acc) [] := by
  induction events with
  | nil => cases he
  | cons a rest ih =>
    simp only [List.foldr_cons, List.mem_append, List.mem_map]
    rcases List.mem_cons.mp he with rfl | h
    · exact Or.inl ⟨s, hs, rfl⟩
    · exact Or.inr (ih h)

theorem mem_deliveries (connected : List Nat) (log : List Effect) (s : Nat) (e : Event)
    (hs : s ∈ connected) (he : e ∈ emitted log) : (s, e) ∈ deliveries connected log :=
  mem_fanout connected (emitted log) s e hs he

/-- C18: with a channel registered whose `emit` does not raise, a create request whose
document the model accepts is answered 201 with the stored task, and the
`taskCreated` event carrying that same task (so the same id) goes to every connected
socket, whichever of them is the requester's; likewise an update by the owner is
answered 200 with the saved task and the `taskUpdated` event carrying it goes to
every connected socket. -/
theorem broadcast_reaches_every_socket (M : TaskModel) (db : Store) (req : Req) (ch : Io)
    (connected : List Nat) (hio : req.io = some ch) (hquiet : ∀ e, ch.emitThrows e = false) :
    (∀ t, createDoc db req = .ok t → M.validate t = true →
      (createTask M db req).res = .json 201 (.task t) ∧
      ∀ s ∈ connected,
        (s, Event.taskCreated ("🎯 New task created: \"" ++ t.title ++ "\"") t req.user.name
          req.user._id req.now) ∈ deliveries connected (createTask M db req).log) ∧
    (∀ task u, db.findById req.id = some task → task.user = req.user._id →
      updateDoc task req.body req.now = some u → M.validate u = true →
      (updateTask M db req).res = .json 200 (.task u) ∧
      ∀ s ∈ connected,
        (s, Event.taskUpdated ("✏️ Task updated: \"" ++ u.title ++ "\"") u req.user.name
          req.user._id req.now) ∈ deliveries connected (updateTask M db req).log) := by
  constructor
  · intro t hdoc hv
    have hout : createTask M db req =
        ⟨⟨db.docs ++ [t], db.nextId + 1⟩,
          [.dbCreate t, .emit (.taskCreated ("🎯 New task created: \"" ++ t.title ++ "\"") t
            req.user.name req.user._id req.now)],
          .json 201 (.task t)⟩ := by
      simp [createTask, hdoc, hv, hio, withEmit, hquiet]
    rw [hout]
    exact ⟨rfl, fun s hs => mem_deliveries _ _ _ _ hs (by simp [emitted])⟩
  · intro task u hfind hown hdoc hv
    have hout : updateTask M db req =
        ⟨⟨saveDoc db.docs u, db.nextId⟩,
          [.dbSave u, .emit (.taskUpdated ("✏️ Task updated: \"" ++ u.title ++ "\"") u
            req.user.name req.user._id req.now)],
          .json 200 (.task u)⟩ := by
      simp [updateTask, hfind, hown, hdoc, hv, hio, withEmit, hquiet]
    rw [hout]
    exact ⟨rfl, fun s hs => mem_deliveries _ _ _ _ hs (by simp [emitted])⟩

theorem broadcast_reaches_every_socket_witness :
    (createTask laxModel sampleDb
        ⟨⟨.str "New", .undefined, .undefined, .undefined⟩, userB, 0, some readyIo, 9⟩).res =
      .json 201 (.task ⟨1, "New", "", .str "todo", .null, 2, 9, 9⟩) ∧
    (8, Event.taskCreated ("🎯 New task created: \"" ++ "New" ++ "\"")
        ⟨1, "New", "", .str "todo", .null, 2, 9, 9⟩ "B" 2 9) ∈
      deliveries [7, 8] (createTask laxModel sampleDb
        ⟨⟨.str "New", .undefined, .undefined, .undefined⟩, userB, 0, some readyIo, 9⟩).log :=
  have h := (broadcast_reaches_every_socket laxModel sampleDb
    ⟨⟨.str "New", .undefined, .undefined, .undefined⟩, userB, 0, some readyIo, 9⟩ readyIo [7, 8]
    rfl (fun _ => rfl)).1 ⟨1, "New", "", .str "todo", .null, 2, 9, 9⟩ rfl rfl
  ⟨h.1, h.2 8 (by decide)⟩

/-- C19 (failing input): sockets 7 (user A) and 8 (user B) are connected and user A creates
a task; the `taskCreated` event is addressed to socket 7 as well, once, exactly as to
socket 8. The same holds for user A's update and the `taskUpdated` event. -/
theorem actor_receives_own_event :
    deliveries [7, 8] (createTask laxModel sampleDb
        ⟨⟨.str "New", .undefined, .undefined, .undefined⟩, userA, 0, some readyIo, 9⟩).log =
      [(7, .taskCreated "🎯 New task created: \"New\""
          ⟨1, "New", "", .str "todo", .null, 1, 9, 9⟩ "A" 1 9),
       (8, .taskCreated "🎯 New task created: \"New\""
          ⟨1, "New", "", .str "todo", .null, 1, 9, 9⟩ "A" 1 9)] ∧
    deliveries [7, 8] (updateTask laxModel sampleDb
        ⟨⟨.str "v2", .undefined, .undefined, .undefined⟩, userA, 0, some readyIo, 9⟩).log =
      [(7, .taskUpdated "✏️ Task updated: \"v2\""
          { shipRelease with title := "v2", updatedAt := 9 } "A" 1 9),
       (8, .taskUpdated "✏️ Task updated: \"v2\""
          { shipRelease with title := "v2", updatedAt := 9 } "A" 1 9)] := by
  decide

/-! ## Defaults on create -/

theorem createDoc_fields (db : Store) (req : Req) (t : Task) (h : createDoc db req = .ok t) :
    t.status = (if req.body.status.truthy then req.body.status else .str "todo") ∧
    t.dueDate = (if req.body.dueDate.truthy then req.body.dueDate else .null) ∧
    (req.body.description = .undefined → t.description = "") ∧
    (∀ d, req.body.description = .str d → t.description = jsTrim d) ∧
    t.createdAt = req.now := by
  unfold createDoc at h
  simp only at h
  split at h
  · cases h
  · split at h
    · cases h
    · split at h
      · cases h
      · split at h
        · cases h
        · rename_i d hd
          cases h
          refine ⟨rfl, rfl, ?_, ?_, rfl⟩
          · intro hdesc
            rw [hdesc] at hd
            simp only [JsVal.optTrim, Option.some.injEq] at hd
            subst hd
            rfl
          · intro d0 hdesc
            rw [hdesc] at hd
            simp only [JsVal.optTrim, Option.some.injEq] at hd
            subst hd
            by_cases he : jsTrim d0 = ""
            · simp [he]
            · simp [he]

theorem createDoc_defined (db : Store) (req : Req) (s : String)
    (ht : req.body.title = .str s) (hs : jsTrim s ≠ "")
    (hd : req.body.description = .undefined ∨ ∃ d, req.body.description = .str d) :
    ∃ t, createDoc db req = .ok t := by
  have hne : s ≠ "" := by
    intro h
    apply hs
    subst h
    rfl
  rcases hd with hd | ⟨d, hd⟩ <;>
    simp [createDoc, ht, hd, JsVal.truthy, JsVal.trim, JsVal.optTrim, hne, hs]

/-- C20: for a create request with a valid title, a description that is absent or a
string, a document the model accepts and a broadcast that does not raise,
`createTask` answers 201 with a task it has appended to the store; that task has
status `todo` when the request has no status, a null due date when the request has
no due date, the empty description when the request has none, and otherwise the
trimmed request description. -/
theorem createTask_defaults (M : TaskModel) (db : Store) (req : Req) (s : String)
    (ht : req.body.title = .str s) (hs : jsTrim s ≠ "")
    (hd : req.body.description = .undefined ∨ ∃ d, req.body.description = .str d)
    (hv : ∀ t, createDoc db req = .ok t → M.validate t = true)
    (hio : ∀ ch e, req.io = some ch → ch.emitThrows e = false) :
    ∃ task, (createTask M db req).res = .json 201 (.task task) ∧
      (createTask M db req).db = ⟨db.docs ++ [task], db.nextId + 1⟩ ∧
      (req.body.status = .undefined → task.status = .str "todo") ∧
      (req.body.dueDate = .undefined → task.dueDate = .null) ∧
      (req.body.description = .undefined → task.description = "") ∧
      (∀ d, req.body.description = .str d → task.description = jsTrim d) := by
  obtain ⟨task, hdoc⟩ := createDoc_defined db req s ht hs hd
  obtain ⟨f1, f2, f3, f4, -⟩ := createDoc_fields db req task hdoc
  refine ⟨task, ?_, createTask_db M db req task hdoc (hv task hdoc), ?_, ?_, f3, f4⟩
  · simp only [createTask, hdoc, hv task hdoc]
    rw [withEmit_of_quiet _ _ _ _ _ (fun ch h => hio ch _ h)]
    simp
  · intro h
    simpa [h, JsVal.truthy] using f1
  · intro h
    simpa [h, JsVal.truthy] using f2

theorem createTask_defaults_witness :
    ∃ task, (createTask laxModel sampleDb
        ⟨⟨.str "New", .str "  some notes ", .undefined, .undefined⟩, userB, 0, some readyIo,
          9⟩).res = .json 201 (.task task) ∧
      task.status = .str "todo" ∧ task.dueDate = .null ∧ task.description = "some notes" := by
  obtain ⟨task, h1, -, h3, h4, -, h6⟩ := createTask_defaults laxModel sampleDb
    ⟨⟨.str "New", .str "  some notes ", .undefined, .undefined⟩, userB, 0, some readyIo, 9⟩
    "New" rfl (by decide) (Or.inr ⟨_, rfl⟩) (fun _ _ => rfl) (fun _ _ h => by cases h; rfl)
  exact ⟨task, h1, h3 rfl, h4 rfl, (h6 "  some notes " rfl).trans (by decide)⟩

/-! ## Listing -/

theorem perm_insertNewest (t : Task) (l : List Task) : (insertNewest t l).Perm (t :: l) := by
  induction l with
  | nil => exact List.Perm.refl _
  | cons u us ih =>
    by_cases h : u.createdAt ≤ t.createdAt
    · simp only [insertNewest, h, if_true]
      exact List.Perm.refl _
    · simp only [insertNewest, h, if_false]
      exact (List.Perm.cons u ih).trans (List.Perm.swap t u us)

theorem perm_sortNewestFirst (l : List Task) : (sortNewestFirst l).Perm l := by
  induction l with
  | nil => exact List.Perm.refl _
  | cons t ts ih =>
    exact (perm_insertNewest t (sortNewestFirst ts)).trans (List.Perm.cons t ih)

theorem sorted_insertNewest (t : Task) (l : List Task)
    (h : l.Pairwise (fun a b => b.createdAt ≤ a.createdAt)) :
    (insertNewest t l).Pairwise (fun a b => b.createdAt ≤ a.createdAt) := by
  induction l with
  | nil => simp [insertNewest]
  | cons u us ih =>
    rw [List.pairwise_cons] at h
    by_cases hu : u.createdAt ≤ t.createdAt
    · simp only [insertNewest, hu, if_true]
      refine List.Pairwise.cons ?_ (List.Pairwise.cons h.1 h.2)
      intro x hx
      rcases List.mem_cons.mp hx with rfl | hx
      · exact hu
      · exact Nat.le_trans (h.1 x hx) hu
    · simp only [insertNewest, hu, if_false]
      refine List.Pairwise.cons ?_ (ih h.2)
      intro x hx
      rcases List.mem_cons.mp ((perm_insertNewest t us).subset hx) with rfl | hx
      · omega
      · exact h.1 x hx

theorem sorted_sortNewestFirst (l : List Task) :
    (sortNewestFirst l).Pairwise (fun a b => b.createdAt ≤ a.createdAt) := by
  induction l with
  | nil => exact List.Pairwise.nil
  | cons t ts ih => exact sorted_insertNewest t _ ih

theorem insertNewest_at_head (t : Task) (l : List Task)
    (h : ∀ x ∈ l, x.createdAt ≤ t.createdAt) : insertNewest t l = t :: l := by
  cases l with
  | nil => rfl
  | cons u us => simp [insertNewest, h u (List.mem_cons_self _ _)]

theorem filter_insertNewest (p : Task → Bool) (t : Task) (l : List Task)
    (h : l.Pairwise (fun a b => b.createdAt ≤ a.createdAt)) :
    (insertNewest t l).filter p =
      if p t then insertNewest t (l.filter p) else l.filter p := by
  induction l with
  | nil => by_cases hp : p t = true <;> simp [insertNewest, hp]
  | cons u us ih =>
    rw [List.pairwise_cons] at h
    by_cases hu : u.createdAt ≤ t.createdAt
    · have hall : ∀ x ∈ (u :: us).filter p, x.createdAt ≤ t.createdAt := by
        intro x hx
        rcases List.mem_cons.mp (List.mem_of_mem_filter hx) with rfl | hx1
        · exact hu
        · exact Nat.le_trans (h.1 x hx1) hu
      rw [insertNewest_at_head t _ hall]
      simp only [insertNewest, hu, if_true]
      by_cases hp : p t = true <;> simp [List.filter_cons, hp]
    · simp only [insertNewest, hu, if_false]
      by_cases hpu : p u = true
      · by_cases hp : p t = true
        · simp [List.filter_cons, hpu, hp, ih h.2, insertNewest, hu]
        · simp [List.filter_cons, hpu, hp, ih h.2]
      · by_cases hp : p t = true
        · simp [List.filter_cons, hpu, hp, ih h.2]
        · simp [List.filter_cons, hpu, hp, ih h.2]

theorem filter_sortNewestFirst (p : Task → Bool) (l : List Task) :
    (sortNewestFirst l).filter p = sortNewestFirst (l.filter p) := by
  induction l with
  | nil => rfl
  | cons t ts ih =>
    simp only [sortNewestFirst]
    rw [filter_insertNewest p t _ (sorted_sortNewestFirst ts), ih]
    by_cases hp : p t = true
    · simp [List.filter_cons, hp, sortNewestFirst]
    · simp [List.filter_cons, hp]

/-- C21: for every store and caller, `getTasks` returns a rearrangement of the stored
tasks owned by the caller (each as often as it is stored, so once when ids are
unique), ordered by `createdAt` from newest to oldest, and the list is the
`getAllTasks` list restricted to the caller's tasks. -/
theorem getTasks_lists_own_tasks (db : Store) (req : Req) :
    (getTasks db req).Perm (db.docs.filter (fun t => t.user == req.user._id)) ∧
    (∀ t, t ∈ getTasks db req ↔ t ∈ db.docs ∧ t.user = req.user._id) ∧
    (db.WF → ((getTasks db req).map (fun t => t._id)).Nodup) ∧
    (getTasks db req).Pairwise (fun a b => b.createdAt ≤ a.createdAt) ∧
    getTasks db req = (getAllTasks db).filter (fun t => t.user == req.user._id) := by
  have hperm := perm_sortNewestFirst (db.docs.filter (fun t => t.user == req.user._id))
  refine ⟨hperm, ?_, ?_, sorted_sortNewestFirst _, ?_⟩
  · intro t
    rw [getTasks, hperm.mem_iff]
    simp [List.mem_filter]
  · intro hwf
    have hsub : ((db.docs.filter (fun t => t.user == req.user._id)).map
        (fun t => t._id)).Nodup :=
      List.Nodup.sublist ((List.filter_sublist db.docs).map _) hwf.1
    exact ((hperm.map (fun t => t._id)).nodup_iff).mpr hsub
  · rw [getTasks, getAllTasks, filter_sortNewestFirst]

theorem getTasks_lists_own_tasks_witness :
    ((getTasks ⟨[shipRelease, { shipRelease with _id := 1, user := 2, createdAt := 7 },
        { shipRelease with _id := 2, createdAt := 9 }], 3⟩
      ⟨emptyBody, userA, 0, none, 10⟩).map (fun t => t._id)).Nodup ∧
    getTasks ⟨[shipRelease, { shipRelease with _id := 1, user := 2, createdAt := 7 },
        { shipRelease with _id := 2, createdAt := 9 }], 3⟩
      ⟨emptyBody, userA, 0, none, 10⟩ = [{ shipRelease with _id := 2, createdAt := 9 }, shipRelease] :=
  ⟨(getTasks_lists_own_tasks ⟨[shipRelease, { shipRelease with _id := 1, user := 2, createdAt := 7 },
        { shipRelease with _id := 2, createdAt := 9 }], 3⟩
      ⟨emptyBody, userA, 0, none, 10⟩).2.2.1 (by decide), by decide⟩

/-- C22: for every store, `getAllTasks` returns a rearrangement of all stored tasks,
whatever their owner (each as often as it is stored, so once when ids are unique),
ordered by `createdAt` from newest to oldest; the result is as long as the store,
and every length occurs. -/
theorem getAllTasks_lists_every_task (db : Store) :
    (getAllTasks db).Perm db.docs ∧
    (∀ t, t ∈ getAllTasks db ↔ t ∈ db.docs) ∧
    (db.WF → ((getAllTasks db).map (fun t => t._id)).Nodup) ∧
    (getAllTasks db).Pairwise (fun a b => b.createdAt ≤ a.createdAt) ∧
    (getAllTasks db).length = db.docs.length ∧
    (∀ n, ∃ db1 : Store, (getAllTasks db1).length = n) := by
  have hperm := perm_sortNewestFirst db.docs
  refine ⟨hperm, fun t => hperm.mem_iff, ?_, sorted_sortNewestFirst _, hperm.length_eq, ?_⟩
  · intro hwf
    exact ((hperm.map (fun t => t._id)).nodup_iff).mpr hwf.1
  · intro n
    exact ⟨⟨List.replicate n shipRelease, 0⟩,
      (perm_sortNewestFirst _).length_eq.trans (List.length_replicate n shipRelease)⟩

theorem getAllTasks_lists_every_task_witness :
    ((getAllTasks ⟨[shipRelease, { shipRelease with _id := 1, user := 2, createdAt := 7 }],
      2⟩).map (fun t => t._id)).Nodup ∧
    getAllTasks ⟨[shipRelease, { shipRelease with _id := 1, user := 2, createdAt := 7 }], 2⟩ =
      [{ shipRelease with _id := 1, user := 2, createdAt := 7 }, shipRelease] :=
  ⟨(getAllTasks_lists_every_task
      ⟨[shipRelease, { shipRelease with _id := 1, user := 2, createdAt := 7 }], 2⟩).2.2.1
      (by decide), by decide⟩

/-! ## The slice reducer -/

/-- C23: for every state and task, `taskCreated` gives a state whose `tasks` is the
task followed by the previous `tasks`, whose `allTasks` is the task followed by the
previous `allTasks`, and whose `loading` and `error` are the previous ones; the same
holds when the action goes through the slice reducer. -/
theorem taskCreated_prepends (state : TasksState) (task : Task) :
    (taskCreated state task).tasks = task :: state.tasks ∧
    (taskCreated state task).allTasks = task :: state.allTasks ∧
    (taskCreated state task).loading = state.loading ∧
    (taskCreated state task).error = state.error ∧
    tasksReducer state (.taskCreated task) =
      ⟨task :: state.tasks, task :: state.allTasks, state.loading, state.error⟩ :=
  ⟨rfl, rfl, rfl, rfl, rfl⟩

/-- C24: for every state, a rejected `fetchTasks`, `fetchAllTasks`, `createTask`,
`updateTask` or `deleteTask` action leaves `tasks` and `allTasks` as they were. For
the four thunks other than `fetchTasks` the whole state is unchanged; a rejected
`fetchTasks` sets `loading` to false and `error` to the message. -/
theorem rejected_keeps_collections (state : TasksState) (thunk : Thunk)
    (payload : Option String) :
    (tasksReducer state (.rejected thunk payload)).tasks = state.tasks ∧
    (tasksReducer state (.rejected thunk payload)).allTasks = state.allTasks ∧
    (thunk ≠ .fetchTasks → tasksReducer state (.rejected thunk payload) = state) ∧
    (thunk = .fetchTasks → tasksReducer state (.rejected thunk payload) =
      { state with loading := false, error := payload }) := by
  cases thunk <;> simp [tasksReducer]

theorem rejected_keeps_collections_witness :
    tasksReducer ⟨[shipRelease], [shipRelease], false, none⟩
        (.rejected .createTask (some "Failed to create task")) =
      ⟨[shipRelease], [shipRelease], false, none⟩ ∧
    tasksReducer ⟨[shipRelease], [shipRelease], true, none⟩
        (.rejected .fetchTasks (some "Failed to fetch tasks")) =
      ⟨[shipRelease], [shipRelease], false, some "Failed to fetch tasks"⟩ :=
  ⟨(rejected_keeps_collections ⟨[shipRelease], [shipRelease], false, none⟩ .createTask
      (some "Failed to create task")).2.2.1 (by decide),
   (rejected_keeps_collections ⟨[shipRelease], [shipRelease], true, none⟩ .fetchTasks
      (some "Failed to fetch tasks")).2.2.2 rfl⟩

/-! ## Authentication before the handler -/

theorem router_stacks : ∀ route ∈ router, ∃ c, route.stack = [.protect, .controller c] := by
  intro route h
  simp only [router, List.mem_cons, List.mem_singleton, List.not_mem_nil, or_false] at h
  rcases h with rfl | rfl | rfl | rfl | rfl <;> exact ⟨_, rfl⟩

/-- C25: the router has exactly the five task routes, the stack of each is the
authentication middleware followed by its controller, and for a request whose
credential the middleware rejects no controller runs: the store is returned as
given, no effect (no write, no broadcast) is performed, and every request that
matches one of the routes is answered 401. A request the middleware accepts reaches
the controller with the authenticated user. -/
theorem routes_run_protect_first :
    router.map (fun route => (route.method, route.path)) =
      [(.GET, .root), (.POST, .root), (.GET, .all), (.PUT, .byId), (.DELETE, .byId)] ∧
    (∀ route ∈ router, ∃ c, route.stack = [.protect, .controller c]) ∧
    (∀ (protect : Option String → Option User) (M : TaskModel) (db : Store) (r : HttpReq),
      protect r.token = none →
        (dispatch protect M db r).db = db ∧ (dispatch protect M db r).log = [] ∧
        ((∃ route ∈ router, route.method = r.method ∧ route.path.matches r.url = true) →
          (dispatch protect M db r).res = .error 401 "Not authorized")) ∧
    (∀ (protect : Option String → Option User) (M : TaskModel) (db : Store) (r : HttpReq)
      (u : User), protect r.token = some u → r.method = .POST → r.url = .root →
        dispatch protect M db r = createTask M db ⟨r.body, u, 0, r.io, r.now⟩) := by
  refine ⟨rfl, router_stacks, ?_, ?_⟩
  · intro protect M db r hrej
    cases hfind : router.find? (fun route => route.method == r.method &&
        route.path.matches r.url) with
    | none =>
      refine ⟨by simp [dispatch, hfind, throwWith], by simp [dispatch, hfind, throwWith], ?_⟩
      rintro ⟨route, hmem, hm, hp⟩
      have := List.find?_eq_none.mp hfind route hmem
      simp [hm, hp] at this
    | some route =>
      obtain ⟨c, hc⟩ := router_stacks route (List.mem_of_find?_eq_some hfind)
      simp [dispatch, hfind, hc, runStack, hrej, throwWith]
  · intro protect M db r u hok hm hu
    simp [dispatch, router, hm, hu, RoutePath.matches, runStack, hok, runController]

theorem routes_run_protect_first_witness :
    (dispatch (fun token => if token = some "token-A" then some userA else none) laxModel
        sampleDb ⟨.DELETE, .id 0, none, emptyBody, some readyIo, 9⟩ =
      ⟨sampleDb, [], .error 401 "Not authorized"⟩) ∧
    (dispatch (fun token => if token = some "token-A" then some userA else none) laxModel
        sampleDb ⟨.POST, .root, some "token-A", ⟨.str "New", .undefined, .undefined, .undefined⟩,
          none, 9⟩ =
      createTask laxModel sampleDb
        ⟨⟨.str "New", .undefined, .undefined, .undefined⟩, userA, 0, none, 9⟩) :=
  have h := routes_run_protect_first
  have h1 := h.2.2.1 (fun token => if token = some "token-A" then some userA else none) laxModel
    sampleDb ⟨.DELETE, .id 0, none, emptyBody, some readyIo, 9⟩ rfl
  ⟨by
    have hres := h1.2.2 ⟨⟨.byId, .DELETE, [.protect, .controller .deleteTask]⟩, by decide, rfl, rfl⟩
    have hdb := h1.1
    have hlog := h1.2.1
    generalize dispatch (fun token => if token = some "token-A" then some userA else none)
      laxModel sampleDb ⟨.DELETE, .id 0, none, emptyBody, some readyIo, 9⟩ = o at hres hdb hlog
    cases o
    simp only at hres hdb hlog
    rw [hres, hdb, hlog],
   h.2.2.2 (fun token => if token = some "token-A" then some userA else none) laxModel
    sampleDb ⟨.POST, .root, some "token-A", ⟨.str "New", .undefined, .undefined, .undefined⟩,
      none, 9⟩ userA rfl rfl rfl⟩

/-! ## No event on a failed request -/

theorem emitted_append (l1 l2 : List Effect) : emitted (l1 ++ l2) = emitted l1 ++ emitted l2 := by
  induction l1 with
  | nil => rfl
  | cons a rest ih => cases a <;> simp [emitted, ih]

/-- A thrown handler with an empty log has emitted nothing and kept the store. -/
theorem throwWith_silent (db : Store) (status : Nat) (message : String) :
    (∀ st m, (throwWith db [] status message).res = .error st m →
      (st = 400 ∨ st = 403 ∨ st = 404) →
      (throwWith db [] status message).log = [] ∧ (throwWith db [] status message).db = db) ∧
    (∀ e ∈ emitted (throwWith db [] status message).log,
      ∃ st b, (throwWith db [] status message).res = .json st b) := by
  refine ⟨fun _ _ _ _ => ⟨rfl, rfl⟩, ?_⟩
  intro e he
  simp [throwWith, emitted] at he

/-- After the checks have passed, the guarded broadcast either raises (status 500,
nothing emitted) or goes on to the success response. -/
theorem withEmit_silent_or_success (db db1 : Store) (log : List Effect) (io : Option Io)
    (e : Event) (k : List Effect → Outcome) (hlog : emitted log = [])
    (hk : ∀ l, ∃ st b, (k l).res = .json st b) :
    (∀ st m, (withEmit db1 log io e k).res = .error st m →
      (st = 400 ∨ st = 403 ∨ st = 404) →
      (withEmit db1 log io e k).log = [] ∧ (withEmit db1 log io e k).db = db) ∧
    (∀ e1 ∈ emitted (withEmit db1 log io e k).log,
      ∃ st b, (withEmit db1 log io e k).res = .json st b) := by
  cases io with
  | none =>
    simp only [withEmit]
    obtain ⟨st0, b0, h0⟩ := hk log
    refine ⟨?_, fun _ _ => ⟨st0, b0, h0⟩⟩
    intro st m hres
    rw [h0] at hres
    cases hres
  | some ch =>
    by_cases hthrow : ch.emitThrows e = true
    · simp only [withEmit, hthrow, if_true, throwWith]
      refine ⟨?_, ?_⟩
      · intro st m hres hst
        simp only [Response.error.injEq] at hres
        omega
      · intro e1 he1
        rw [hlog] at he1
        cases he1
    · simp only [withEmit, hthrow]
      obtain ⟨st0, b0, h0⟩ := hk (log ++ [.emit e])
      refine ⟨?_, fun _ _ => ⟨st0, b0, h0⟩⟩
      intro st m hres
      simp only [Bool.false_eq_true, if_false] at hres
      rw [h0] at hres
      cases hres

/-- C26: for `createTask`, `updateTask` and `deleteTask` alike, a request answered
with status 400, 404 or 403 has an empty effect log (no event, no write) and leaves
the store as given; and whenever the log of a request holds an emitted event, the
response is a success response. -/
theorem failed_requests_emit_nothing (M : TaskModel) (db : Store) (req : Req) :
    ((∀ st m, (createTask M db req).res = .error st m → (st = 400 ∨ st = 403 ∨ st = 404) →
        (createTask M db req).log = [] ∧ (createTask M db req).db = db) ∧
      (∀ e ∈ emitted (createTask M db req).log,
        ∃ st b, (createTask M db req).res = .json st b)) ∧
    ((∀ st m, (updateTask M db req).res = .error st m → (st = 400 ∨ st = 403 ∨ st = 404) →
        (updateTask M db req).log = [] ∧ (updateTask M db req).db = db) ∧
      (∀ e ∈ emitted (updateTask M db req).log,
        ∃ st b, (updateTask M db req).res = .json st b)) ∧
    ((∀ st m, (deleteTask db req).res = .error st m → (st = 400 ∨ st = 403 ∨ st = 404) →
        (deleteTask db req).log = [] ∧ (deleteTask db req).db = db) ∧
      (∀ e ∈ emitted (deleteTask db req).log,
        ∃ st b, (deleteTask db req).res = .json st b)) := by
  refine ⟨?_, ?_, ?_⟩
  · unfold createTask
    split
    · exact throwWith_silent db _ _
    · split
      · exact throwWith_silent db _ _
      · exact withEmit_silent_or_success db _ _ _ _ _ rfl (fun _ => ⟨_, _, rfl⟩)
  · unfold updateTask
    split
    · exact throwWith_silent db _ _
    · split
      · exact throwWith_silent db _ _
      · split
        · exact throwWith_silent db _ _
        · split
          · exact throwWith_silent db _ _
          · exact withEmit_silent_or_success db _ _ _ _ _ rfl (fun _ => ⟨_, _, rfl⟩)
  · unfold deleteTask
    split
    · exact throwWith_silent db _ _
    · split
      · exact throwWith_silent db _ _
      · exact withEmit_silent_or_success db _ _ _ _ _ rfl (fun _ => ⟨_, _, rfl⟩)

theorem failed_requests_emit_nothing_witness :
    (updateTask laxModel sampleDb ⟨emptyBody, userB, 0, some readyIo, 9⟩).res =
      .error 403 "Not authorized to update this task" ∧
    (updateTask laxModel sampleDb ⟨emptyBody, userB, 0, some readyIo, 9⟩).log = [] ∧
    (updateTask laxModel sampleDb ⟨emptyBody, userB, 0, some readyIo, 9⟩).db = sampleDb :=
  ⟨by decide,
   (failed_requests_emit_nothing laxModel sampleDb ⟨emptyBody, userB, 0, some readyIo, 9⟩).2.1.1
      403 "Not authorized to update this task" (by decide) (Or.inr (Or.inl rfl))⟩

/-! ## The owner guard of `TaskItem` -/

theorem isTaskOwner_iff (userInfo : Option User) (task : ItemTask) :
    isTaskOwner userInfo task = true ↔
      ∃ info, userInfo = some info ∧
        (task.user = .bare info._id ∨ task.user = .populated info._id) := by
  cases userInfo with
  | none => simp [isTaskOwner]
  | some info =>
    cases hu : task.user with
    | missing => simp [isTaskOwner, hu]
    | bare id => simp [isTaskOwner, hu]
    | populated id => simp [isTaskOwner, hu]

/-- The owner of a stored task is never answered 403 by `updateTask`. -/
theorem updateTask_owner_not_forbidden (M : TaskModel) (db : Store) (req : Req) (task : Task)
    (hfind : db.findById req.id = some task) (hown : task.user = req.user._id) :
    (updateTask M db req).res ≠ .error 403 "Not authorized to update this task" := by
  simp only [updateTask, hfind, hown]
  cases hdoc : updateDoc task req.body req.now with
  | none => simp [throwWith]
  | some u =>
    by_cases hv : M.validate u = true
    · cases hio : req.io with
      | none => simp [hv, withEmit]
      | some ch =>
        by_cases hthrow : ch.emitThrows
          (.taskUpdated ("✏️ Task updated: \"" ++ u.title ++ "\"") u req.user.name req.user._id
            req.now) = true
        · simp [hv, withEmit, hthrow, throwWith]
        · simp [hv, withEmit, hthrow]
    · simp [hv, throwWith]

/-- C27: (1) every `updateTask` dispatch of `handleUpdate` and every `deleteTask`
dispatch of `handleDelete` happens with `isTaskOwner` true, and with it true
`handleUpdate` does dispatch and `handleDelete` dispatches once confirmed;
(2) `isTaskOwner` is true exactly when a user is logged in and the task's user, bare
id or populated object's `_id`, is that user's id; (3) for a stored task shown with
its populated owner, `isTaskOwner` is false for the caller exactly when the server
answers the caller's update with 403. -/
theorem taskItem_owner_guard :
    (∀ userInfo task editData id taskData,
      UiEffect.dispatchUpdateTask id taskData ∈ handleUpdate userInfo task editData →
        isTaskOwner userInfo task = true) ∧
    (∀ userInfo task confirmed id,
      UiEffect.dispatchDeleteTask id ∈ handleDelete userInfo task confirmed →
        isTaskOwner userInfo task = true) ∧
    (∀ userInfo task editData, isTaskOwner userInfo task = true →
      ∃ taskData, UiEffect.dispatchUpdateTask task._id taskData ∈
        handleUpdate userInfo task editData) ∧
    (∀ userInfo task, isTaskOwner userInfo task = true →
      handleDelete userInfo task true = [.dispatchDeleteTask task._id]) ∧
    (∀ userInfo task, isTaskOwner userInfo task = true ↔
      ∃ info, userInfo = some info ∧
        (task.user = .bare info._id ∨ task.user = .populated info._id)) ∧
    (∀ (M : TaskModel) (db : Store) (req : Req) (t : Task), db.WF → t ∈ db.docs →
      t._id = req.id →
      (isTaskOwner (some req.user) ⟨t._id, t.title, .populated t.user⟩ = false ↔
        (updateTask M db req).res = .error 403 "Not authorized to update this task")) := by
  refine ⟨?_, ?_, ?_, ?_, isTaskOwner_iff, ?_⟩
  · intro userInfo task editData id taskData h
    by_cases ho : isTaskOwner userInfo task = true
    · exact ho
    · simp [handleUpdate, ho] at h
  · intro userInfo task confirmed id h
    by_cases ho : isTaskOwner userInfo task = true
    · exact ho
    · simp [handleDelete, ho] at h
  · intro userInfo task editData ho
    exact ⟨{ editData with dueDate := if editData.dueDate.truthy then .obj else .null },
      by simp [handleUpdate, ho]⟩
  · intro userInfo task ho
    simp [handleDelete, ho]
  · intro M db req t hwf hmem hid
    have hfind : db.findById req.id = some t := hid ▸ findById_of_mem db hwf t hmem
    by_cases hown : t.user = req.user._id
    · have hne := updateTask_owner_not_forbidden M db req t hfind hown
      simp [isTaskOwner, hown, hne]
    · have h403 : (updateTask M db req).res =
          .error 403 "Not authorized to update this task" := by
        simp [updateTask, hfind, hown, throwWith]
      simp [isTaskOwner, hown, h403]

theorem taskItem_owner_guard_witness :
    isTaskOwner (some userA) ⟨0, "Ship release", .populated 1⟩ = true ∧
    (isTaskOwner (some userB) ⟨shipRelease._id, shipRelease.title,
        .populated shipRelease.user⟩ = false ↔
      (updateTask laxModel sampleDb ⟨emptyBody, userB, 0, none, 9⟩).res =
        .error 403 "Not authorized to update this task") ∧
    handleDelete (some userA) ⟨0, "Ship release", .bare 1⟩ true = [.dispatchDeleteTask 0] :=
  ⟨taskItem_owner_guard.1 (some userA) ⟨0, "Ship release", .populated 1⟩ emptyBody 0
      { emptyBody with dueDate := .null } (by decide),
   taskItem_owner_guard.2.2.2.2.2 laxModel sampleDb ⟨emptyBody, userB, 0, none, 9⟩ shipRelease
      (by decide) (by decide) rfl,
   taskItem_owner_guard.2.2.2.1 (some userA) ⟨0, "Ship release", .bare 1⟩ (by decide)⟩

end TaskManager
